import Mathlib

/-!
Verification development for the RFB (VNC) client protocol engine of the Veyon
repository, shallowly embedded from src/core/src/VncClientProtocol.cpp.

The transport (QTcpSocket) is modelled as an ordered byte stream: `input` is the
list of unread incoming bytes, `output` the list of bytes written so far, and
`closed` records whether the connection has been torn down.  Bytes are natural
numbers (wire bytes are < 256; the definitions are exercised on byte values).
`peek` returns a prefix without consuming, `read n` consumes up to `n` bytes,
exactly like the Qt socket primitives used by the source.

The DES cipher (rfbDesKey / rfbDes from d3des) is an external primitive in the
source; it is a function parameter `des : key -> block -> block` here.
-/

/-- Connection state of the engine (enum `VncClientProtocol::State` in the source). -/
inductive VncState where
  | Protocol
  | SecurityInit
  | SecurityChallenge
  | SecurityResult
  | FramebufferInit
  | Running
deriving DecidableEq

/-- Rectangle in QRect style: origin `x`,`y` and extent `w`,`h` (all nonnegative on this wire). -/
structure VRect where
  x : Nat
  y : Nat
  w : Nat
  h : Nat
deriving DecidableEq

/-- Transport adapter state: unread input bytes, written output bytes, closed flag. -/
structure Socket where
  input : List Nat
  output : List Nat
  closed : Bool
deriving DecidableEq

/-- Number of buffered unread bytes (`QTcpSocket::bytesAvailable`). -/
def Socket.bytesAvailable (s : Socket) : Nat := s.input.length

/-- Look ahead at up to `n` bytes without consuming them (`QTcpSocket::peek`). -/
def Socket.peekBytes (s : Socket) (n : Nat) : List Nat := s.input.take n

/-- Consume and return up to `n` bytes (`QTcpSocket::read`). -/
def Socket.readBytes (s : Socket) (n : Nat) : List Nat × Socket :=
  (s.input.take n, { s with input := s.input.drop n })

/-- Append bytes to the outgoing stream (`QTcpSocket::write`). -/
def Socket.writeBytes (s : Socket) (bs : List Nat) : Socket :=
  { s with output := s.output ++ bs }

/-- Tear the connection down (`QTcpSocket::close`). -/
def Socket.close (s : Socket) : Socket := { s with closed := true }

/-- State owned by `VncClientProtocol`: connection state, the 16 raw bytes of
`m_pixelFormat`, framebuffer geometry, the bounding rectangle of the last
framebuffer update, the raw bytes of the last fully consumed message, the raw
server-init message and the password supplied at construction. -/
structure Proto where
  state : VncState
  pixelFormat : List Nat
  fbWidth : Nat
  fbHeight : Nat
  lastUpdatedRect : VRect
  lastMessage : List Nat
  serverInitMessage : List Nat
  vncPassword : List Nat
deriving DecidableEq

/-- Result of one parse attempt: the returned Bool together with the successor
protocol object and socket. -/
structure StepResult where
  ok : Bool
  proto : Proto
  socket : Socket
deriving DecidableEq

/-- Byte at index `i` of a byte list (out-of-range reads yield 0; all reads in
the development are bounds-checked before the value is used). -/
def byteAt (d : List Nat) (i : Nat) : Nat := d.getD i 0

/-- Big-endian 16-bit value from two bytes (`qFromBigEndian` on a `uint16_t`). -/
def be16 (a b : Nat) : Nat := 256 * a + b

/-- Big-endian 32-bit value from four bytes (`qFromBigEndian` on a `uint32_t`). -/
def be32 (a b c d : Nat) : Nat := 16777216 * a + 65536 * b + 256 * c + d

/-- Wrap-around of C `unsigned int` (32-bit) arithmetic. -/
def u32 (v : Nat) : Nat := v % 4294967296

/-- Value of a `uint32_t` after `static_cast<int>` (two's complement reinterpretation). -/
def toInt32 (v : Nat) : Int :=
  if v < 2147483648 then (v : Int) else (v : Int) - 4294967296

/-- Signature of the supplied DES primitive: 8-byte key (already scheduled via
`rfbDesKey`) and 8-byte block to `rfbDes`-encrypt. -/
abbrev DesFn : Type := List Nat → List Nat → List Nat

/-- Encoding identifiers from rfb/rfbproto.h, as the `uint32_t` values the
source compares against. -/
def rfbEncodingRaw : Nat := 0

def rfbEncodingCopyRect : Nat := 1

def rfbEncodingRRE : Nat := 2

def rfbEncodingCoRRE : Nat := 4

def rfbEncodingHextile : Nat := 5

def rfbEncodingZlib : Nat := 6

def rfbEncodingUltra : Nat := 9

def rfbEncodingUltraZip : Nat := 10

def rfbEncodingZRLE : Nat := 16

def rfbEncodingZYWRLE : Nat := 17

def rfbEncodingXCursor : Nat := 4294967056

def rfbEncodingRichCursor : Nat := 4294967057

def rfbEncodingPointerPos : Nat := 4294967064

def rfbEncodingLastRect : Nat := 4294967072

def rfbEncodingNewFBSize : Nat := 4294967073

def rfbEncodingKeyboardLedState : Nat := 4294836224

def rfbEncodingSupportedMessages : Nat := 4294836225

def rfbEncodingSupportedEncodings : Nat := 4294836226

def rfbEncodingServerIdentity : Nat := 4294836227

/-- Modelled from the spec: the hard maximum single-message size of section 4.2.
The constant itself lives in VncClientProtocol.h, which is not among the
provided sources; no theorem below depends on its concrete value. -/
def MaximumMessageSize : Nat := 16777216

/-- Outcome of `handleRect` for one rectangle: payload fully buffered (new
cursor position), not yet fully buffered, or fatal (unsupported encoding,
socket is closed). -/
inductive HandleRectResult where
  | ok (pos : Nat)
  | insufficient
  | fatal
deriving DecidableEq

/-- Lift an optional cursor position to a `HandleRectResult`. -/
def ofOpt : Option Nat → HandleRectResult
  | some p => .ok p
  | none => .insufficient

/-- Check that `n` payload bytes are buffered at cursor `pos` and skip them.
Mirrors `buffer.read(n).size() == static_cast<int>(n)` on the peeked QBuffer:
it succeeds only when all `n` bytes are present and `n` fits a positive int. -/
def readChk (d : List Nat) (pos n : Nat) : Option Nat :=
  if n < 2147483648 ∧ pos + n ≤ d.length then some (pos + n) else none

/-- Payload check for one RRE rectangle (`handleRectEncodingRRE`): a 4-byte
subrectangle count, then `bytesPerPixel + count * (bytesPerPixel + 8)` bytes,
computed in 32-bit unsigned arithmetic like the source. -/
def handleRectEncodingRRE (d : List Nat) (pos bpp : Nat) : Option Nat :=
  if pos + 4 ≤ d.length then
    let nSubrects := be32 (byteAt d pos) (byteAt d (pos+1)) (byteAt d (pos+2)) (byteAt d (pos+3))
    let rectDataSize := u32 (nSubrects * (bpp + 8))
    readChk d (pos + 4) (u32 (bpp + rectDataSize))
  else none

/-- Payload check for one CoRRE rectangle (`handleRectEncodingCoRRE`): like RRE
with 4-byte compact subrectangles. -/
def handleRectEncodingCoRRE (d : List Nat) (pos bpp : Nat) : Option Nat :=
  if pos + 4 ≤ d.length then
    let nSubrects := be32 (byteAt d pos) (byteAt d (pos+1)) (byteAt d (pos+2)) (byteAt d (pos+3))
    let rectDataSize := u32 (nSubrects * (bpp + 4))
    readChk d (pos + 4) (u32 (bpp + rectDataSize))
  else none

/-- Payload check for one Hextile tile: 1-byte sub-encoding flag, then either
the full raw tile (`w * h * bpp` bytes), or optional background / foreground
pixels and an optional counted subrectangle list.  Flag bits as in rfbproto.h:
1 raw, 2 background, 4 foreground, 8 any-subrects, 16 subrects-coloured. -/
def hextileTile (d : List Nat) (pos w h bpp : Nat) : Option Nat :=
  if pos + 1 ≤ d.length then
    let subEncoding := byteAt d pos
    if subEncoding &&& 1 ≠ 0 then
      readChk d (pos + 1) (w * h * bpp)
    else
      (if subEncoding &&& 2 ≠ 0 then readChk d (pos + 1) bpp else some (pos + 1)).bind fun p2 =>
      (if subEncoding &&& 4 ≠ 0 then readChk d p2 bpp else some p2).bind fun p3 =>
      if subEncoding &&& 8 = 0 then some p3
      else if p3 + 1 ≤ d.length then
        readChk d (p3 + 1)
          (if subEncoding &&& 16 ≠ 0 then byteAt d p3 * (2 + bpp) else byteAt d p3 * 2)
      else none
  else none

/-- One row of Hextile tiles: the inner `x` loop of the source runs
`(rw + 15) / 16` times, the tile width is 16 except for a final partial tile. -/
def hextileCols (d : List Nat) (bpp h : Nat) : Nat → Nat → Nat → Option Nat
  | 0, _, pos => some pos
  | n+1, rwRem, pos =>
    (hextileTile d pos (min 16 rwRem) h bpp).bind fun p2 =>
      hextileCols d bpp h n (rwRem - 16) p2

/-- All rows of Hextile tiles: the outer `y` loop of the source runs
`(rh + 15) / 16` times, the tile height is 16 except for a final partial row. -/
def hextileRows (d : List Nat) (bpp rw : Nat) : Nat → Nat → Nat → Option Nat
  | 0, _, pos => some pos
  | n+1, rhRem, pos =>
    (hextileCols d bpp (min 16 rhRem) ((rw + 15) / 16) rw pos).bind fun p2 =>
      hextileRows d bpp rw n (rhRem - 16) p2

/-- Payload check for a Hextile rectangle (`handleRectEncodingHextile`). -/
def handleRectEncodingHextile (d : List Nat) (pos rw rh bpp : Nat) : Option Nat :=
  hextileRows d bpp rw ((rh + 15) / 16) rh pos

/-- Payload check for Zlib / Ultra / UltraZip rectangles: 4-byte big-endian
compressed length, then that many bytes. -/
def handleRectEncodingZlib (d : List Nat) (pos : Nat) : Option Nat :=
  if pos + 4 ≤ d.length then
    readChk d (pos + 4) (be32 (byteAt d pos) (byteAt d (pos+1)) (byteAt d (pos+2)) (byteAt d (pos+3)))
  else none

/-- Payload check for ZRLE / ZYWRLE rectangles: 4-byte big-endian length, then
that many bytes. -/
def handleRectEncodingZRLE (d : List Nat) (pos : Nat) : Option Nat :=
  if pos + 4 ≤ d.length then
    readChk d (pos + 4) (be32 (byteAt d pos) (byteAt d (pos+1)) (byteAt d (pos+2)) (byteAt d (pos+3)))
  else none

/-- Pseudo-encodings carry metadata, not screen pixels (`isPseudoEncoding`). -/
def isPseudoEncoding (enc : Nat) : Bool :=
  enc = rfbEncodingSupportedEncodings ∨ enc = rfbEncodingSupportedMessages ∨
  enc = rfbEncodingServerIdentity ∨ enc = rfbEncodingPointerPos ∨
  enc = rfbEncodingKeyboardLedState ∨ enc = rfbEncodingNewFBSize

/-- Dispatch on the rectangle encoding and skip its payload (`handleRect`).
`width`/`height` are the rectangle header fields, `bpp` is
`m_pixelFormat.bitsPerPixel / 8`.  Size products are 32-bit unsigned like the
source. -/
def handleRect (d : List Nat) (pos enc width height bpp : Nat) : HandleRectResult :=
  if enc = rfbEncodingLastRect then .ok pos
  else if enc = rfbEncodingXCursor then
    (if width * height = 0 then .ok pos
     else ofOpt ((readChk d pos 6).bind fun p1 =>
                   readChk d p1 (u32 (2 * ((width + 7) / 8) * height))))
  else if enc = rfbEncodingRichCursor then
    (if width * height = 0 then .ok pos
     else ofOpt ((readChk d pos (u32 (width * height * bpp))).bind fun p1 =>
                   readChk d p1 (u32 ((width + 7) / 8 * height))))
  else if enc = rfbEncodingSupportedMessages then ofOpt (readChk d pos 64)
  else if enc = rfbEncodingSupportedEncodings ∨ enc = rfbEncodingServerIdentity then
    ofOpt (readChk d pos width)
  else if enc = rfbEncodingRaw then ofOpt (readChk d pos (u32 (width * height * bpp)))
  else if enc = rfbEncodingCopyRect then ofOpt (readChk d pos 4)
  else if enc = rfbEncodingRRE then ofOpt (handleRectEncodingRRE d pos bpp)
  else if enc = rfbEncodingCoRRE then ofOpt (handleRectEncodingCoRRE d pos bpp)
  else if enc = rfbEncodingHextile then ofOpt (handleRectEncodingHextile d pos width height bpp)
  else if enc = rfbEncodingUltra ∨ enc = rfbEncodingUltraZip ∨ enc = rfbEncodingZlib then
    ofOpt (handleRectEncodingZlib d pos)
  else if enc = rfbEncodingZRLE ∨ enc = rfbEncodingZYWRLE then
    ofOpt (handleRectEncodingZRLE d pos)
  else if enc = rfbEncodingPointerPos ∨ enc = rfbEncodingKeyboardLedState ∨
          enc = rfbEncodingNewFBSize then .ok pos
  else .fatal

/-- Outcome of the rectangle loop of `receiveFramebufferUpdateMessage`. -/
inductive ParseResult where
  | done (pos : Nat) (region : List VRect)
  | insufficient
  | fatal
deriving DecidableEq

/-- Continue a rectangle parse after `handleRect`: propagate failure, feed the
new cursor position to the continuation otherwise (the early-return pattern of
the source loop). -/
def HandleRectResult.andThen (r : HandleRectResult) (f : Nat → ParseResult) : ParseResult :=
  match r with
  | .ok p => f p
  | .insufficient => .insufficient
  | .fatal => .fatal

/-- The rectangle loop of `receiveFramebufferUpdateMessage`: parse up to `n`
rectangle headers from the peeked buffer `d`, dispatch each payload through
`handleRect`, stop early on the last-rect sentinel, and collect the bounding
boxes of real (non-pseudo) rectangles that lie within the current framebuffer
geometry (QRegion ignores empty rectangles). -/
def parseRectsLoop (bpp fbW fbH : Nat) (d : List Nat) : Nat → Nat → List VRect → ParseResult
  | 0, pos, region => .done pos region
  | n+1, pos, region =>
    if pos + 12 ≤ d.length then
      let x := be16 (byteAt d pos) (byteAt d (pos+1))
      let y := be16 (byteAt d (pos+2)) (byteAt d (pos+3))
      let w := be16 (byteAt d (pos+4)) (byteAt d (pos+5))
      let h := be16 (byteAt d (pos+6)) (byteAt d (pos+7))
      let enc := be32 (byteAt d (pos+8)) (byteAt d (pos+9)) (byteAt d (pos+10)) (byteAt d (pos+11))
      if enc = rfbEncodingLastRect then .done (pos + 12) region
      else
        (handleRect d (pos + 12) enc w h bpp).andThen fun p2 =>
          parseRectsLoop bpp fbW fbH d n p2
            (if isPseudoEncoding enc = false ∧ x + w ≤ fbW ∧ y + h ≤ fbH ∧ 0 < w ∧ 0 < h then
               region ++ [⟨x, y, w, h⟩]
             else region)
    else .insufficient

/-- Bounding rectangle of a union of rectangles (`QRegion::boundingRect`); the
empty region gives the null QRect. -/
def boundingRect : List VRect → VRect
  | [] => ⟨0, 0, 0, 0⟩
  | r :: rs =>
    let l := rs.foldl (fun a t => min a t.x) r.x
    let t := rs.foldl (fun a q => min a q.y) r.y
    let rgt := rs.foldl (fun a q => max a (q.x + q.w)) (r.x + r.w)
    let bot := rs.foldl (fun a q => max a (q.y + q.h)) (r.y + r.h)
    ⟨l, t, rgt - l, bot - t⟩

/-- Membership of an integer point in a `VRect` (used to compare an exposed
rectangle with the rectangles of a message). -/
def pointInRect (px py : Nat) (r : VRect) : Bool :=
  r.x ≤ px ∧ px < r.x + r.w ∧ r.y ≤ py ∧ py < r.y + r.h

/-- Consume a fully buffered message of `size` bytes and store it as
`m_lastMessage` (`VncClientProtocol::readMessage`).  `size` is a C `int`; for
a negative size the Qt read yields nothing and the size check fails. -/
def readMessage (pr : Proto) (s : Socket) (size : Int) : StepResult :=
  if (s.bytesAvailable : Int) < size then ⟨false, pr, s⟩
  else if size < 0 then ⟨false, pr, s⟩
  else
    let r := s.readBytes size.toNat
    if r.1.length = size.toNat then ⟨true, { pr with lastMessage := r.1 }, r.2⟩
    else ⟨false, pr, r.2⟩

/-- Conclude a framebuffer-update parse: a fatal parse closes the transport, a
short parse waits, a completed parse records the bounding rectangle of the
updated region and consumes exactly the parsed bytes. -/
def ParseResult.finish (r : ParseResult) (pr : Proto) (s : Socket) : StepResult :=
  match r with
  | .fatal => ⟨false, pr, s.close⟩
  | .insufficient => ⟨false, pr, s⟩
  | .done pos region =>
    readMessage { pr with lastUpdatedRect := boundingRect region } s (pos : Int)

/-- FramebufferUpdate: peek everything available, parse the 4-byte message
header and the rectangle loop against that local buffer, record the bounding
rectangle of the updated region, and only then consume exactly the parsed
bytes (`receiveFramebufferUpdateMessage`). -/
def receiveFramebufferUpdateMessage (pr : Proto) (s : Socket) : StepResult :=
  if s.input.length < 4 then ⟨false, pr, s⟩
  else
    (parseRectsLoop (byteAt pr.pixelFormat 0 / 8) pr.fbWidth pr.fbHeight s.input
        (be16 (byteAt s.input 2) (byteAt s.input 3)) 4 []).finish pr s

/-- SetColourMapEntries: 6-byte header, then 6 bytes per declared colour
(`receiveColourMapEntriesMessage`). -/
def receiveColourMapEntriesMessage (pr : Proto) (s : Socket) : StepResult :=
  if s.bytesAvailable < 6 then ⟨false, pr, s⟩
  else readMessage pr s ((6 + be16 (byteAt s.input 4) (byteAt s.input 5) * 6 : Nat) : Int)

/-- Bell: fixed one-byte message (`receiveBellMessage`). -/
def receiveBellMessage (pr : Proto) (s : Socket) : StepResult :=
  readMessage pr s 1

/-- ServerCutText: 8-byte header then `length` bytes; the `uint32_t` length is
cast to `int` like the source (`receiveCutTextMessage`). -/
def receiveCutTextMessage (pr : Proto) (s : Socket) : StepResult :=
  if s.bytesAvailable < 8 then ⟨false, pr, s⟩
  else
    readMessage pr s
      (8 + toInt32 (be32 (byteAt s.input 4) (byteAt s.input 5) (byteAt s.input 6) (byteAt s.input 7)))

/-- ResizeFrameBuffer: fixed 6-byte message; on success the framebuffer
geometry is updated from the stored message (`receiveResizeFramebufferMessage`). -/
def receiveResizeFramebufferMessage (pr : Proto) (s : Socket) : StepResult :=
  let r := readMessage pr s 6
  if r.ok then
    ⟨true,
     { r.proto with
        fbWidth := be16 (byteAt r.proto.lastMessage 2) (byteAt r.proto.lastMessage 3),
        fbHeight := be16 (byteAt r.proto.lastMessage 4) (byteAt r.proto.lastMessage 5) },
     r.socket⟩
  else r

/-- Xvp: fixed 4-byte message (`receiveXvpMessage`). -/
def receiveXvpMessage (pr : Proto) (s : Socket) : StepResult :=
  readMessage pr s 4

/-- Running-state dispatch (`receiveMessage`): fatal if more than the maximum
message size is buffered, wait if no type byte is buffered, otherwise dispatch
on the peeked message-type byte; an unknown type closes the transport. -/
def receiveMessage (pr : Proto) (s : Socket) : StepResult :=
  if MaximumMessageSize < s.bytesAvailable then ⟨false, pr, s.close⟩
  else if s.bytesAvailable < 1 then ⟨false, pr, s⟩
  else
    let t := byteAt s.input 0
    if t = 0 then receiveFramebufferUpdateMessage pr s
    else if t = 1 then receiveColourMapEntriesMessage pr s
    else if t = 2 then receiveBellMessage pr s
    else if t = 3 then receiveCutTextMessage pr s
    else if t = 4 then receiveResizeFramebufferMessage pr s
    else if t = 250 then receiveXvpMessage pr s
    else ⟨false, pr, s.close⟩

/-- Digit test used by the version regular expression (ASCII `0`..`9`). -/
def isDigit (c : Nat) : Bool := 48 ≤ c ∧ c ≤ 57

/-- Match of `RFB (ddd).(ddd)\n` against the 12-byte version line (the pattern
is 12 characters, so on a 12-byte message it can only match whole). -/
def versionMatch (p : List Nat) : Bool :=
  p.length = 12 ∧
  byteAt p 0 = 82 ∧ byteAt p 1 = 70 ∧ byteAt p 2 = 66 ∧ byteAt p 3 = 32 ∧
  isDigit (byteAt p 4) ∧ isDigit (byteAt p 5) ∧ isDigit (byteAt p 6) ∧
  byteAt p 7 = 46 ∧
  isDigit (byteAt p 8) ∧ isDigit (byteAt p 9) ∧ isDigit (byteAt p 10) ∧
  byteAt p 11 = 10

/-- Integer value of the three-digit major version capture. -/
def versionMajor (p : List Nat) : Nat :=
  (byteAt p 4 - 48) * 100 + (byteAt p 5 - 48) * 10 + (byteAt p 6 - 48)

/-- Integer value of the three-digit minor version capture. -/
def versionMinor (p : List Nat) : Nat :=
  (byteAt p 8 - 48) * 100 + (byteAt p 9 - 48) * 10 + (byteAt p 10 - 48)

/-- ProtocolVersion step (`readProtocol`): requires exactly 12 buffered bytes,
validates `RFB ddd.ddd\n` with major = 3 and minor >= 7, echoes the version
back and advances; a malformed or unsupported version closes the transport. -/
def readProtocol (pr : Proto) (s : Socket) : StepResult :=
  if s.bytesAvailable = 12 then
    let r := s.readBytes 12
    if r.1.length ≠ 12 then ⟨false, pr, r.2.close⟩
    else if versionMatch r.1 = true ∧ versionMajor r.1 = 3 ∧ 7 ≤ versionMinor r.1 then
      ⟨true, { pr with state := .SecurityInit }, r.2.writeBytes r.1⟩
    else ⟨false, pr, r.2.close⟩
  else ⟨false, pr, s⟩

/-- SecurityTypeSelection step (`receiveSecurityTypes`): with at least 2 bytes
buffered, consume the count byte and the type list; a zero count, a short list
or a list without VNC-Auth (2) and without None (1) is fatal; otherwise the
chosen type is written back and the state advances. -/
def receiveSecurityTypes (pr : Proto) (s : Socket) : StepResult :=
  if 2 ≤ s.bytesAvailable then
    let r1 := s.readBytes 1
    let securityTypeCount := byteAt r1.1 0
    if securityTypeCount = 0 then ⟨false, pr, r1.2.close⟩
    else
      let r2 := r1.2.readBytes securityTypeCount
      if r2.1.length ≠ securityTypeCount then ⟨false, pr, r2.2.close⟩
      else if r2.1.contains 2 then ⟨true, { pr with state := .SecurityChallenge }, r2.2.writeBytes [2]⟩
      else if r2.1.contains 1 then ⟨true, { pr with state := .SecurityResult }, r2.2.writeBytes [1]⟩
      else ⟨false, pr, r2.2.close⟩
  else ⟨false, pr, s⟩

/-- Key derivation and per-block encryption of `vncEncryptBytes`: the DES key
is the password null-padded (or truncated) to 8 bytes, and each 8-byte half of
the 16-byte challenge is encrypted with it. -/
def vncEncryptBytes (des : DesFn) (passwd bytes : List Nat) : List Nat :=
  let key := (List.range 8).map fun i => if i < passwd.length then byteAt passwd i else 0
  des key (bytes.take 8) ++ des key ((bytes.drop 8).take 8)

/-- SecurityChallenge step (`receiveSecurityChallenge`): consume the 16-byte
challenge, write back its per-block DES encryption, advance to SecurityResult. -/
def receiveSecurityChallenge (des : DesFn) (pr : Proto) (s : Socket) : StepResult :=
  if 16 ≤ s.bytesAvailable then
    let r := s.readBytes 16
    ⟨true, { pr with state := .SecurityResult },
     r.2.writeBytes (vncEncryptBytes des pr.vncPassword r.1)⟩
  else ⟨false, pr, s⟩

/-- SecurityResult step (`receiveSecurityResult`): read the 4-byte big-endian
status; nonzero is authentication failure (fatal), zero sends the client-init
byte (shared flag 1) and advances to FramebufferInit. -/
def receiveSecurityResult (pr : Proto) (s : Socket) : StepResult :=
  if 4 ≤ s.bytesAvailable then
    let r := s.readBytes 4
    if be32 (byteAt r.1 0) (byteAt r.1 1) (byteAt r.1 2) (byteAt r.1 3) ≠ 0 then
      ⟨false, pr, r.2.close⟩
    else ⟨true, { pr with state := .FramebufferInit }, r.2.writeBytes [1]⟩
  else ⟨false, pr, s⟩

/-- FramebufferInit step (`receiveServerInitMessage`): peek the fixed 24-byte
server-init header; a declared name length above 255 is fatal; the stored
pixel format is overwritten from the peeked header; then, exactly like the
source, `peek(nameLength)` (counted from the start of the unread stream) must
return `nameLength` bytes before `24 + nameLength` bytes are consumed and the
geometry captured. -/
def receiveServerInitMessage (pr : Proto) (s : Socket) : StepResult :=
  if 24 ≤ s.bytesAvailable then
    let message := s.peekBytes 24
    let nameLength := be32 (byteAt message 20) (byteAt message 21) (byteAt message 22) (byteAt message 23)
    if 255 < nameLength then ⟨false, pr, s.close⟩
    else
      let pr2 := { pr with pixelFormat := (message.drop 4).take 16 }
      if (s.peekBytes nameLength).length = nameLength then
        let r := s.readBytes (24 + nameLength)
        ⟨true,
         { pr2 with
            serverInitMessage := r.1,
            fbWidth := be16 (byteAt r.1 0) (byteAt r.1 1),
            fbHeight := be16 (byteAt r.1 2) (byteAt r.1 3),
            state := .Running }, r.2⟩
      else ⟨false, pr2, s⟩
  else ⟨false, pr, s⟩

/-- One call of `VncClientProtocol::read()`: dispatch on the connection state;
the `Running` state is not handled by the switch and falls through to `false`. -/
def readStep (des : DesFn) (pr : Proto) (s : Socket) : StepResult :=
  if pr.state = .Protocol then readProtocol pr s
  else if pr.state = .SecurityInit then receiveSecurityTypes pr s
  else if pr.state = .SecurityChallenge then receiveSecurityChallenge des pr s
  else if pr.state = .SecurityResult then receiveSecurityResult pr s
  else if pr.state = .FramebufferInit then receiveServerInitMessage pr s
  else ⟨false, pr, s⟩

/-- Drive `read()` until it reports no progress (the event-loop retry pattern);
fuel bounds the iteration count. -/
def readLoop (des : DesFn) : Nat → Proto → Socket → Proto × Socket
  | 0, pr, s => (pr, s)
  | fuel+1, pr, s =>
    let r := readStep des pr s
    if r.ok then readLoop des fuel r.proto r.socket else (r.proto, r.socket)

/-- Deliver a stream chunk by chunk; after each chunk arrives, `read()` is
retried until it makes no more progress. -/
def deliverChunks (des : DesFn) : List (List Nat) → Proto → Socket → Proto × Socket
  | [], pr, s => (pr, s)
  | c :: cs, pr, s =>
    let s2 : Socket := { s with input := s.input ++ c }
    let r := readLoop des (s2.input.length + 1) pr s2
    deliverChunks des cs r.1 r.2

/-- Identity block cipher, used to instantiate the abstract DES primitive in
concrete runs. -/
def desId : DesFn := fun _ b => b

/-- Sample cipher that prepends the key, used to check key derivation in
concrete runs. -/
def desKeyTag : DesFn := fun k b => k ++ b

/-- Baseline protocol object for concrete runs. -/
def proto0 : Proto :=
  { state := .Protocol, pixelFormat := List.replicate 16 0, fbWidth := 0, fbHeight := 0,
    lastUpdatedRect := ⟨0, 0, 0, 0⟩, lastMessage := [], serverInitMessage := [],
    vncPassword := [] }

/-- Running-state protocol object with an 8-bit pixel format and a 100 x 100
framebuffer, for concrete runs. -/
def protoRun : Proto :=
  { proto0 with
    state := .Running,
    pixelFormat := (8 :: List.replicate 15 0),
    fbWidth := 100,
    fbHeight := 100 }

/-- Bytes of the version line `RFB 003.008\n`. -/
def versionRfb38 : List Nat := [82, 70, 66, 32, 48, 48, 51, 46, 48, 48, 56, 10]

/-- Bytes of the version line `RFB 003.889\n`. -/
def versionRfb3889 : List Nat := [82, 70, 66, 32, 48, 48, 51, 46, 56, 56, 57, 10]

/-- Bytes of the version line `RFB 002.000\n`. -/
def versionRfb20 : List Nat := [82, 70, 66, 32, 48, 48, 50, 46, 48, 48, 48, 10]

/-- Bytes of the version line `RFB 003.003\n`. -/
def versionRfb33 : List Nat := [82, 70, 66, 32, 48, 48, 51, 46, 48, 48, 51, 10]

/-- Big-endian 2-byte encoding of a value below 65536. -/
def be16bytes (v : Nat) : List Nat := [v / 256 % 256, v % 256]

/-- Big-endian 4-byte encoding of a value below 2^32. -/
def be32bytes (v : Nat) : List Nat :=
  [v / 16777216 % 256, v / 65536 % 256, v / 256 % 256, v % 256]

/-- Wire bytes of one framebuffer-update rectangle header. -/
def mkRectHeader (x y w h enc : Nat) : List Nat :=
  be16bytes x ++ be16bytes y ++ be16bytes w ++ be16bytes h ++ be32bytes enc

/-! ### Prefix-agreement machinery

A successful parse of a unit only inspects bytes below its final cursor
position.  The lemmas below make that precise for every parsing primitive of
the engine: a run that succeeds with final position `p2` succeeds identically
on any byte list that agrees with the original on its first `p2` bytes.  This
is the formal core behind retryability and chunk-size questions. -/

theorem take_agree_len {d d2 : List Nat} {n : Nat} (hn : n ≤ d.length)
    (h : List.take n d2 = List.take n d) : n ≤ d2.length := by
  have h1 : (List.take n d2).length = (List.take n d).length := by rw [h]
  rw [List.length_take, List.length_take] at h1
  omega

theorem take_agree_mono {d d2 : List Nat} {m n : Nat} (hm : m ≤ n)
    (h : List.take n d2 = List.take n d) : List.take m d2 = List.take m d := by
  have h1 : List.take m (List.take n d2) = List.take m (List.take n d) := by rw [h]
  rwa [List.take_take, List.take_take, Nat.min_eq_left hm] at h1

theorem byteAt_agree {d d2 : List Nat} {n i : Nat} (h : List.take n d2 = List.take n d)
    (hi : i < n) : byteAt d2 i = byteAt d i := by
  have h2 : (List.take n d2)[i]? = (List.take n d)[i]? := by rw [h]
  rw [List.getElem?_take, List.getElem?_take, if_pos hi, if_pos hi] at h2
  rw [byteAt, byteAt, List.getD_eq_getElem?_getD, List.getD_eq_getElem?_getD, h2]

theorem byteAt_take {d : List Nat} {n i : Nat} (hi : i < n) :
    byteAt (List.take n d) i = byteAt d i :=
  byteAt_agree (by rw [List.take_take, Nat.min_self]) hi

theorem readChk_some {d : List Nat} {pos n p2 : Nat} (h : readChk d pos n = some p2) :
    p2 = pos + n ∧ pos + n ≤ d.length ∧ n < 2147483648 := by
  rw [readChk] at h
  split at h
  · rename_i hc
    cases h
    exact ⟨rfl, hc.2, hc.1⟩
  · exact absurd h (by simp)

theorem readChk_stable {d d2 : List Nat} {pos n p2 : Nat} (h : readChk d pos n = some p2)
    (ha : List.take p2 d2 = List.take p2 d) : readChk d2 pos n = some p2 := by
  obtain ⟨hp, hle, hsz⟩ := readChk_some h
  subst hp
  have h2 : pos + n ≤ d2.length := take_agree_len hle ha
  simp [readChk, hsz, h2]

theorem rre_spec {d : List Nat} {pos bpp p2 : Nat}
    (h : handleRectEncodingRRE d pos bpp = some p2) :
    pos ≤ p2 ∧ p2 ≤ d.length ∧
      ∀ d2 : List Nat, List.take p2 d2 = List.take p2 d →
        handleRectEncodingRRE d2 pos bpp = some p2 := by
  simp only [handleRectEncodingRRE] at h
  split at h
  case isTrue h4 =>
    obtain ⟨hp, hle, hsz⟩ := readChk_some h
    refine ⟨by omega, by omega, fun d2 ha => ?_⟩
    have hlen2 : pos + 4 ≤ d2.length := le_trans (by omega) (take_agree_len (by omega) ha)
    simp only [handleRectEncodingRRE]
    rw [if_pos hlen2,
        show byteAt d2 pos = byteAt d pos from byteAt_agree ha (by omega),
        show byteAt d2 (pos+1) = byteAt d (pos+1) from byteAt_agree ha (by omega),
        show byteAt d2 (pos+2) = byteAt d (pos+2) from byteAt_agree ha (by omega),
        show byteAt d2 (pos+3) = byteAt d (pos+3) from byteAt_agree ha (by omega)]
    exact readChk_stable h ha
  case isFalse => exact absurd h (by simp)

theorem corre_spec {d : List Nat} {pos bpp p2 : Nat}
    (h : handleRectEncodingCoRRE d pos bpp = some p2) :
    pos ≤ p2 ∧ p2 ≤ d.length ∧
      ∀ d2 : List Nat, List.take p2 d2 = List.take p2 d →
        handleRectEncodingCoRRE d2 pos bpp = some p2 := by
  simp only [handleRectEncodingCoRRE] at h
  split at h
  case isTrue h4 =>
    obtain ⟨hp, hle, hsz⟩ := readChk_some h
    refine ⟨by omega, by omega, fun d2 ha => ?_⟩
    have hlen2 : pos + 4 ≤ d2.length := le_trans (by omega) (take_agree_len (by omega) ha)
    simp only [handleRectEncodingCoRRE]
    rw [if_pos hlen2,
        show byteAt d2 pos = byteAt d pos from byteAt_agree ha (by omega),
        show byteAt d2 (pos+1) = byteAt d (pos+1) from byteAt_agree ha (by omega),
        show byteAt d2 (pos+2) = byteAt d (pos+2) from byteAt_agree ha (by omega),
        show byteAt d2 (pos+3) = byteAt d (pos+3) from byteAt_agree ha (by omega)]
    exact readChk_stable h ha
  case isFalse => exact absurd h (by simp)

theorem zlib_spec {d : List Nat} {pos p2 : Nat}
    (h : handleRectEncodingZlib d pos = some p2) :
    pos ≤ p2 ∧ p2 ≤ d.length ∧
      ∀ d2 : List Nat, List.take p2 d2 = List.take p2 d →
        handleRectEncodingZlib d2 pos = some p2 := by
  simp only [handleRectEncodingZlib] at h
  split at h
  case isTrue h4 =>
    obtain ⟨hp, hle, hsz⟩ := readChk_some h
    refine ⟨by omega, by omega, fun d2 ha => ?_⟩
    have hlen2 : pos + 4 ≤ d2.length := le_trans (by omega) (take_agree_len (by omega) ha)
    simp only [handleRectEncodingZlib]
    rw [if_pos hlen2,
        show byteAt d2 pos = byteAt d pos from byteAt_agree ha (by omega),
        show byteAt d2 (pos+1) = byteAt d (pos+1) from byteAt_agree ha (by omega),
        show byteAt d2 (pos+2) = byteAt d (pos+2) from byteAt_agree ha (by omega),
        show byteAt d2 (pos+3) = byteAt d (pos+3) from byteAt_agree ha (by omega)]
    exact readChk_stable h ha
  case isFalse => exact absurd h (by simp)

theorem zrle_spec {d : List Nat} {pos p2 : Nat}
    (h : handleRectEncodingZRLE d pos = some p2) :
    pos ≤ p2 ∧ p2 ≤ d.length ∧
      ∀ d2 : List Nat, List.take p2 d2 = List.take p2 d →
        handleRectEncodingZRLE d2 pos = some p2 := by
  simp only [handleRectEncodingZRLE] at h
  split at h
  case isTrue h4 =>
    obtain ⟨hp, hle, hsz⟩ := readChk_some h
    refine ⟨by omega, by omega, fun d2 ha => ?_⟩
    have hlen2 : pos + 4 ≤ d2.length := le_trans (by omega) (take_agree_len (by omega) ha)
    simp only [handleRectEncodingZRLE]
    rw [if_pos hlen2,
        show byteAt d2 pos = byteAt d pos from byteAt_agree ha (by omega),
        show byteAt d2 (pos+1) = byteAt d (pos+1) from byteAt_agree ha (by omega),
        show byteAt d2 (pos+2) = byteAt d (pos+2) from byteAt_agree ha (by omega),
        show byteAt d2 (pos+3) = byteAt d (pos+3) from byteAt_agree ha (by omega)]
    exact readChk_stable h ha
  case isFalse => exact absurd h (by simp)

theorem hextileTile_spec {d : List Nat} {pos w h bpp p2 : Nat}
    (hh : hextileTile d pos w h bpp = some p2) :
    pos ≤ p2 ∧ p2 ≤ d.length ∧
      ∀ d2 : List Nat, List.take p2 d2 = List.take p2 d →
        hextileTile d2 pos w h bpp = some p2 := by
  simp only [hextileTile] at hh
  split at hh
  case isFalse => exact absurd hh (by simp)
  case isTrue h1 =>
    split at hh
    case isTrue hraw =>
      obtain ⟨hp, hle, hsz⟩ := readChk_some hh
      refine ⟨by omega, by omega, fun d2 ha => ?_⟩
      have hl2 : pos + 1 ≤ d2.length := le_trans (by omega) (take_agree_len (by omega) ha)
      simp only [hextileTile]
      rw [if_pos hl2, show byteAt d2 pos = byteAt d pos from byteAt_agree ha (by omega),
          if_pos hraw]
      exact readChk_stable hh ha
    case isFalse hraw =>
      cases hs1 : (if byteAt d pos &&& 2 ≠ 0 then readChk d (pos + 1) bpp else some (pos + 1)) with
      | none => rw [hs1] at hh; exact absurd hh (by simp)
      | some q1 =>
        rw [hs1, Option.some_bind] at hh
        cases hs2 : (if byteAt d pos &&& 4 ≠ 0 then readChk d q1 bpp else some q1) with
        | none => rw [hs2] at hh; exact absurd hh (by simp)
        | some q2 =>
          rw [hs2, Option.some_bind] at hh
          have hf1 : pos + 1 ≤ q1 ∧ q1 ≤ d.length := by
            by_cases hc : byteAt d pos &&& 2 ≠ 0
            · rw [if_pos hc] at hs1
              obtain ⟨e, l, _⟩ := readChk_some hs1
              omega
            · rw [if_neg hc] at hs1
              simp at hs1
              omega
          have hf2 : q1 ≤ q2 ∧ q2 ≤ d.length := by
            by_cases hc : byteAt d pos &&& 4 ≠ 0
            · rw [if_pos hc] at hs2
              obtain ⟨e, l, _⟩ := readChk_some hs2
              omega
            · rw [if_neg hc] at hs2
              simp at hs2
              omega
          split at hh
          case isTrue h8 =>
            cases hh
            refine ⟨by omega, by omega, fun d2 ha => ?_⟩
            have hl2 : pos + 1 ≤ d2.length := le_trans (by omega) (take_agree_len (by omega) ha)
            simp only [hextileTile]
            rw [if_pos hl2, show byteAt d2 pos = byteAt d pos from byteAt_agree ha (by omega),
                if_neg hraw]
            have hs1d : (if byteAt d pos &&& 2 ≠ 0 then readChk d2 (pos + 1) bpp
                         else some (pos + 1)) = some q1 := by
              by_cases hc : byteAt d pos &&& 2 ≠ 0
              · rw [if_pos hc] at hs1 ⊢
                exact readChk_stable hs1 (take_agree_mono (by omega) ha)
              · rw [if_neg hc] at hs1 ⊢
                exact hs1
            have hs2d : (if byteAt d pos &&& 4 ≠ 0 then readChk d2 q1 bpp
                         else some q1) = some p2 := by
              by_cases hc : byteAt d pos &&& 4 ≠ 0
              · rw [if_pos hc] at hs2 ⊢
                exact readChk_stable hs2 (take_agree_mono (by omega) ha)
              · rw [if_neg hc] at hs2 ⊢
                exact hs2
            rw [hs1d, Option.some_bind, hs2d, Option.some_bind, if_pos h8]
          case isFalse h8 =>
            split at hh
            case isFalse => exact absurd hh (by simp)
            case isTrue h9 =>
              obtain ⟨hp, hle, hsz⟩ := readChk_some hh
              refine ⟨by omega, by omega, fun d2 ha => ?_⟩
              have hl2 : pos + 1 ≤ d2.length := le_trans (by omega) (take_agree_len (by omega) ha)
              simp only [hextileTile]
              rw [if_pos hl2, show byteAt d2 pos = byteAt d pos from byteAt_agree ha (by omega),
                  if_neg hraw]
              have hs1d : (if byteAt d pos &&& 2 ≠ 0 then readChk d2 (pos + 1) bpp
                           else some (pos + 1)) = some q1 := by
                by_cases hc : byteAt d pos &&& 2 ≠ 0
                · rw [if_pos hc] at hs1 ⊢
                  exact readChk_stable hs1 (take_agree_mono (by omega) ha)
                · rw [if_neg hc] at hs1 ⊢
                  exact hs1
              have hs2d : (if byteAt d pos &&& 4 ≠ 0 then readChk d2 q1 bpp
                           else some q1) = some q2 := by
                by_cases hc : byteAt d pos &&& 4 ≠ 0
                · rw [if_pos hc] at hs2 ⊢
                  exact readChk_stable hs2 (take_agree_mono (by omega) ha)
                · rw [if_neg hc] at hs2 ⊢
                  exact hs2
              rw [hs1d, Option.some_bind, hs2d, Option.some_bind, if_neg h8,
                  if_pos (show q2 + 1 ≤ d2.length from le_trans (by omega) (take_agree_len (by omega) ha)),
                  show byteAt d2 q2 = byteAt d q2 from byteAt_agree ha (by omega)]
              exact readChk_stable hh ha

theorem hextileCols_spec {d : List Nat} {bpp h : Nat} {n rwRem pos p2 : Nat}
    (hh : hextileCols d bpp h n rwRem pos = some p2) :
    pos ≤ p2 ∧ (pos ≤ d.length → p2 ≤ d.length) ∧
      ∀ d2 : List Nat, List.take p2 d2 = List.take p2 d →
        hextileCols d2 bpp h n rwRem pos = some p2 := by
  induction n generalizing rwRem pos p2 with
  | zero =>
    simp only [hextileCols] at hh
    cases hh
    exact ⟨Nat.le_refl _, fun hp => hp, fun d2 _ => by simp [hextileCols]⟩
  | succ n ih =>
    simp only [hextileCols] at hh
    cases ht : hextileTile d pos (min 16 rwRem) h bpp with
    | none => rw [ht] at hh; exact absurd hh (by simp)
    | some q1 =>
      rw [ht, Option.some_bind] at hh
      obtain ⟨l1, b1, s1⟩ := hextileTile_spec ht
      obtain ⟨l2, b2, s2⟩ := ih hh
      refine ⟨by omega, fun _ => b2 b1, fun d2 ha => ?_⟩
      simp only [hextileCols]
      rw [s1 d2 (take_agree_mono (by omega) ha), Option.some_bind]
      exact s2 d2 ha

theorem hextileRows_spec {d : List Nat} {bpp rw : Nat} {n rhRem pos p2 : Nat}
    (hh : hextileRows d bpp rw n rhRem pos = some p2) :
    pos ≤ p2 ∧ (pos ≤ d.length → p2 ≤ d.length) ∧
      ∀ d2 : List Nat, List.take p2 d2 = List.take p2 d →
        hextileRows d2 bpp rw n rhRem pos = some p2 := by
  induction n generalizing rhRem pos p2 with
  | zero =>
    simp only [hextileRows] at hh
    cases hh
    exact ⟨Nat.le_refl _, fun hp => hp, fun d2 _ => by simp [hextileRows]⟩
  | succ n ih =>
    simp only [hextileRows] at hh
    cases ht : hextileCols d bpp (min 16 rhRem) ((rw + 15) / 16) rw pos with
    | none => rw [ht] at hh; exact absurd hh (by simp)
    | some q1 =>
      rw [ht, Option.some_bind] at hh
      obtain ⟨l1, b1, s1⟩ := hextileCols_spec ht
      obtain ⟨l2, b2, s2⟩ := ih hh
      refine ⟨by omega, fun hp => b2 (b1 hp), fun d2 ha => ?_⟩
      simp only [hextileRows]
      rw [s1 d2 (take_agree_mono (by omega) ha), Option.some_bind]
      exact s2 d2 ha

theorem hextile_spec {d : List Nat} {pos rw rh bpp p2 : Nat}
    (hh : handleRectEncodingHextile d pos rw rh bpp = some p2) :
    pos ≤ p2 ∧ (pos ≤ d.length → p2 ≤ d.length) ∧
      ∀ d2 : List Nat, List.take p2 d2 = List.take p2 d →
        handleRectEncodingHextile d2 pos rw rh bpp = some p2 := by
  rw [handleRectEncodingHextile] at hh
  obtain ⟨l1, b1, s1⟩ := hextileRows_spec hh
  exact ⟨l1, b1, fun d2 ha => by rw [handleRectEncodingHextile]; exact s1 d2 ha⟩

theorem ofOpt_ok {o : Option Nat} {p : Nat} (h : ofOpt o = .ok p) : o = some p := by
  cases o with
  | none => simp [ofOpt] at h
  | some a =>
    simp only [ofOpt, HandleRectResult.ok.injEq] at h
    rw [h]

theorem chk2_spec {d : List Nat} {pos n1 n2 p2 : Nat}
    (h : (readChk d pos n1).bind (fun p1 => readChk d p1 n2) = some p2) :
    pos ≤ p2 ∧ p2 ≤ d.length ∧
      ∀ d2 : List Nat, List.take p2 d2 = List.take p2 d →
        (readChk d2 pos n1).bind (fun p1 => readChk d2 p1 n2) = some p2 := by
  cases hs : readChk d pos n1 with
  | none => rw [hs] at h; exact absurd h (by simp)
  | some q1 =>
    rw [hs, Option.some_bind] at h
    obtain ⟨e1, l1, z1⟩ := readChk_some hs
    obtain ⟨e2, l2, z2⟩ := readChk_some h
    refine ⟨by omega, by omega, fun d2 ha => ?_⟩
    rw [readChk_stable hs (take_agree_mono (by omega) ha), Option.some_bind]
    exact readChk_stable h ha

theorem handleRect_stable {d d2 : List Nat} {pos enc width height bpp p2 : Nat}
    (h : handleRect d pos enc width height bpp = .ok p2)
    (ha : List.take p2 d2 = List.take p2 d) :
    handleRect d2 pos enc width height bpp = .ok p2 := by
  rw [handleRect] at h ⊢
  by_cases e1 : enc = rfbEncodingLastRect
  · rw [if_pos e1] at h ⊢
    exact h
  rw [if_neg e1] at h ⊢
  by_cases e2 : enc = rfbEncodingXCursor
  · rw [if_pos e2] at h ⊢
    by_cases ez : width * height = 0
    · rw [if_pos ez] at h ⊢
      exact h
    · rw [if_neg ez] at h ⊢
      rw [(chk2_spec (ofOpt_ok h)).2.2 d2 ha]
      rfl
  rw [if_neg e2] at h ⊢
  by_cases e3 : enc = rfbEncodingRichCursor
  · rw [if_pos e3] at h ⊢
    by_cases ez : width * height = 0
    · rw [if_pos ez] at h ⊢
      exact h
    · rw [if_neg ez] at h ⊢
      rw [(chk2_spec (ofOpt_ok h)).2.2 d2 ha]
      rfl
  rw [if_neg e3] at h ⊢
  by_cases e4 : enc = rfbEncodingSupportedMessages
  · rw [if_pos e4] at h ⊢
    rw [readChk_stable (ofOpt_ok h) ha]
    rfl
  rw [if_neg e4] at h ⊢
  by_cases e5 : enc = rfbEncodingSupportedEncodings ∨ enc = rfbEncodingServerIdentity
  · rw [if_pos e5] at h ⊢
    rw [readChk_stable (ofOpt_ok h) ha]
    rfl
  rw [if_neg e5] at h ⊢
  by_cases e6 : enc = rfbEncodingRaw
  · rw [if_pos e6] at h ⊢
    rw [readChk_stable (ofOpt_ok h) ha]
    rfl
  rw [if_neg e6] at h ⊢
  by_cases e7 : enc = rfbEncodingCopyRect
  · rw [if_pos e7] at h ⊢
    rw [readChk_stable (ofOpt_ok h) ha]
    rfl
  rw [if_neg e7] at h ⊢
  by_cases e8 : enc = rfbEncodingRRE
  · rw [if_pos e8] at h ⊢
    rw [(rre_spec (ofOpt_ok h)).2.2 d2 ha]
    rfl
  rw [if_neg e8] at h ⊢
  by_cases e9 : enc = rfbEncodingCoRRE
  · rw [if_pos e9] at h ⊢
    rw [(corre_spec (ofOpt_ok h)).2.2 d2 ha]
    rfl
  rw [if_neg e9] at h ⊢
  by_cases e10 : enc = rfbEncodingHextile
  · rw [if_pos e10] at h ⊢
    rw [(hextile_spec (ofOpt_ok h)).2.2 d2 ha]
    rfl
  rw [if_neg e10] at h ⊢
  by_cases e11 : enc = rfbEncodingUltra ∨ enc = rfbEncodingUltraZip ∨ enc = rfbEncodingZlib
  · rw [if_pos e11] at h ⊢
    rw [(zlib_spec (ofOpt_ok h)).2.2 d2 ha]
    rfl
  rw [if_neg e11] at h ⊢
  by_cases e12 : enc = rfbEncodingZRLE ∨ enc = rfbEncodingZYWRLE
  · rw [if_pos e12] at h ⊢
    rw [(zrle_spec (ofOpt_ok h)).2.2 d2 ha]
    rfl
  rw [if_neg e12] at h ⊢
  by_cases e13 : enc = rfbEncodingPointerPos ∨ enc = rfbEncodingKeyboardLedState ∨
      enc = rfbEncodingNewFBSize
  · rw [if_pos e13] at h ⊢
    exact h
  rw [if_neg e13] at h ⊢
  exact h

theorem handleRect_facts {d : List Nat} {pos enc width height bpp p2 : Nat}
    (h : handleRect d pos enc width height bpp = .ok p2) :
    pos ≤ p2 ∧ (pos ≤ d.length → p2 ≤ d.length) := by
  rw [handleRect] at h
  by_cases e1 : enc = rfbEncodingLastRect
  · rw [if_pos e1] at h
    cases h
    exact ⟨Nat.le_refl _, fun hp => hp⟩
  rw [if_neg e1] at h
  by_cases e2 : enc = rfbEncodingXCursor
  · rw [if_pos e2] at h
    by_cases ez : width * height = 0
    · rw [if_pos ez] at h
      cases h
      exact ⟨Nat.le_refl _, fun hp => hp⟩
    · rw [if_neg ez] at h
      obtain ⟨l, b, s⟩ := chk2_spec (ofOpt_ok h)
      exact ⟨l, fun _ => b⟩
  rw [if_neg e2] at h
  by_cases e3 : enc = rfbEncodingRichCursor
  · rw [if_pos e3] at h
    by_cases ez : width * height = 0
    · rw [if_pos ez] at h
      cases h
      exact ⟨Nat.le_refl _, fun hp => hp⟩
    · rw [if_neg ez] at h
      obtain ⟨l, b, s⟩ := chk2_spec (ofOpt_ok h)
      exact ⟨l, fun _ => b⟩
  rw [if_neg e3] at h
  by_cases e4 : enc = rfbEncodingSupportedMessages
  · rw [if_pos e4] at h
    obtain ⟨e, l, z⟩ := readChk_some (ofOpt_ok h)
    exact ⟨by omega, fun _ => by omega⟩
  rw [if_neg e4] at h
  by_cases e5 : enc = rfbEncodingSupportedEncodings ∨ enc = rfbEncodingServerIdentity
  · rw [if_pos e5] at h
    obtain ⟨e, l, z⟩ := readChk_some (ofOpt_ok h)
    exact ⟨by omega, fun _ => by omega⟩
  rw [if_neg e5] at h
  by_cases e6 : enc = rfbEncodingRaw
  · rw [if_pos e6] at h
    obtain ⟨e, l, z⟩ := readChk_some (ofOpt_ok h)
    exact ⟨by omega, fun _ => by omega⟩
  rw [if_neg e6] at h
  by_cases e7 : enc = rfbEncodingCopyRect
  · rw [if_pos e7] at h
    obtain ⟨e, l, z⟩ := readChk_some (ofOpt_ok h)
    exact ⟨by omega, fun _ => by omega⟩
  rw [if_neg e7] at h
  by_cases e8 : enc = rfbEncodingRRE
  · rw [if_pos e8] at h
    obtain ⟨l, b, s⟩ := rre_spec (ofOpt_ok h)
    exact ⟨l, fun _ => b⟩
  rw [if_neg e8] at h
  by_cases e9 : enc = rfbEncodingCoRRE
  · rw [if_pos e9] at h
    obtain ⟨l, b, s⟩ := corre_spec (ofOpt_ok h)
    exact ⟨l, fun _ => b⟩
  rw [if_neg e9] at h
  by_cases e10 : enc = rfbEncodingHextile
  · rw [if_pos e10] at h
    obtain ⟨l, b, s⟩ := hextile_spec (ofOpt_ok h)
    exact ⟨l, b⟩
  rw [if_neg e10] at h
  by_cases e11 : enc = rfbEncodingUltra ∨ enc = rfbEncodingUltraZip ∨ enc = rfbEncodingZlib
  · rw [if_pos e11] at h
    obtain ⟨l, b, s⟩ := zlib_spec (ofOpt_ok h)
    exact ⟨l, fun _ => b⟩
  rw [if_neg e11] at h
  by_cases e12 : enc = rfbEncodingZRLE ∨ enc = rfbEncodingZYWRLE
  · rw [if_pos e12] at h
    obtain ⟨l, b, s⟩ := zrle_spec (ofOpt_ok h)
    exact ⟨l, fun _ => b⟩
  rw [if_neg e12] at h
  by_cases e13 : enc = rfbEncodingPointerPos ∨ enc = rfbEncodingKeyboardLedState ∨
      enc = rfbEncodingNewFBSize
  · rw [if_pos e13] at h
    cases h
    exact ⟨Nat.le_refl _, fun hp => hp⟩
  rw [if_neg e13] at h
  exact absurd h (by simp)

theorem parseRectsLoop_spec {bpp fbW fbH : Nat} {d : List Nat} {n pos p2 : Nat}
    {region region2 : List VRect}
    (h : parseRectsLoop bpp fbW fbH d n pos region = .done p2 region2) :
    pos ≤ p2 ∧ (pos ≤ d.length → p2 ≤ d.length) ∧
      ∀ d2 : List Nat, List.take p2 d2 = List.take p2 d →
        parseRectsLoop bpp fbW fbH d2 n pos region = .done p2 region2 := by
  induction n generalizing pos region p2 region2 with
  | zero =>
    simp only [parseRectsLoop] at h
    cases h
    exact ⟨Nat.le_refl _, fun hp => hp, fun d2 _ => by simp [parseRectsLoop]⟩
  | succ n ih =>
    simp only [parseRectsLoop] at h
    split at h
    case isFalse => exact absurd h (by simp)
    case isTrue h12 =>
      split at h
      case isTrue hlast =>
        cases h
        refine ⟨by omega, fun _ => by omega, fun d2 ha => ?_⟩
        have hd2 : pos + 12 ≤ d2.length := take_agree_len (by omega) ha
        have hb : ∀ i, i < pos + 12 → byteAt d2 i = byteAt d i :=
          fun i hi => byteAt_agree ha (by omega)
        simp only [parseRectsLoop]
        rw [if_pos hd2, hb pos (by omega), hb (pos+1) (by omega), hb (pos+2) (by omega),
            hb (pos+3) (by omega), hb (pos+4) (by omega), hb (pos+5) (by omega),
            hb (pos+6) (by omega), hb (pos+7) (by omega), hb (pos+8) (by omega),
            hb (pos+9) (by omega), hb (pos+10) (by omega), hb (pos+11) (by omega),
            if_pos hlast]
      case isFalse hlast =>
        cases hr : handleRect d (pos + 12)
            (be32 (byteAt d (pos+8)) (byteAt d (pos+9)) (byteAt d (pos+10)) (byteAt d (pos+11)))
            (be16 (byteAt d (pos+4)) (byteAt d (pos+5)))
            (be16 (byteAt d (pos+6)) (byteAt d (pos+7))) bpp with
        | fatal =>
          rw [hr] at h
          simp only [HandleRectResult.andThen] at h
          exact absurd h (by simp)
        | insufficient =>
          rw [hr] at h
          simp only [HandleRectResult.andThen] at h
          exact absurd h (by simp)
        | ok q =>
          rw [hr] at h
          simp only [HandleRectResult.andThen] at h
          obtain ⟨lq, bq, sq⟩ := ih h
          obtain ⟨l1, b1⟩ := handleRect_facts hr
          refine ⟨by omega, fun _ => bq (b1 (by omega)), fun d2 ha => ?_⟩
          have hp2d : p2 ≤ d.length := bq (b1 h12)
          have hd2 : p2 ≤ d2.length := take_agree_len hp2d ha
          have hb : ∀ i, i < pos + 12 → byteAt d2 i = byteAt d i :=
            fun i hi => byteAt_agree ha (by omega)
          simp only [parseRectsLoop]
          rw [if_pos (by omega : pos + 12 ≤ d2.length),
              hb pos (by omega), hb (pos+1) (by omega), hb (pos+2) (by omega),
              hb (pos+3) (by omega), hb (pos+4) (by omega), hb (pos+5) (by omega),
              hb (pos+6) (by omega), hb (pos+7) (by omega), hb (pos+8) (by omega),
              hb (pos+9) (by omega), hb (pos+10) (by omega), hb (pos+11) (by omega),
              if_neg hlast,
              handleRect_stable hr (take_agree_mono (by omega) ha)]
          simp only [HandleRectResult.andThen]
          exact sq d2 ha

/-! ### Characterizations of the message consumers -/

theorem readMessage_spec (pr : Proto) (s : Socket) (size : Int) :
    readMessage pr s size =
      if (s.bytesAvailable : Int) < size ∨ size < 0 then ⟨false, pr, s⟩
      else ⟨true, { pr with lastMessage := s.input.take size.toNat },
            { s with input := s.input.drop size.toNat }⟩ := by
  rw [readMessage]
  by_cases h1 : (s.bytesAvailable : Int) < size
  · rw [if_pos h1, if_pos (Or.inl h1)]
  · rw [if_neg h1]
    by_cases h2 : size < 0
    · rw [if_pos h2, if_pos (Or.inr h2)]
    · rw [if_neg h2, if_neg (fun hor : _ ∨ _ => hor.elim h1 h2)]
      have hsz : size.toNat ≤ s.input.length := by
        rw [Socket.bytesAvailable] at h1
        omega
      simp [Socket.readBytes, List.length_take, Nat.min_eq_left hsz]

theorem sized_consume (pr : Proto) (bs out : List Nat) (k : Nat) (hkb : k ≤ bs.length) :
    readMessage pr ⟨bs, out, false⟩ (k : Int) =
        ⟨true, { pr with lastMessage := bs.take k }, ⟨bs.drop k, out, false⟩⟩ ∧
      readMessage pr ⟨bs.take k, out, false⟩ (k : Int) =
        ⟨true, { pr with lastMessage := bs.take k }, ⟨[], out, false⟩⟩ := by
  constructor
  · rw [readMessage_spec, if_neg]
    · simp
    · rw [Socket.bytesAvailable]
      simp only [not_or, not_lt]
      omega
  · rw [readMessage_spec, if_neg]
    · simp [List.take_take]
    · rw [Socket.bytesAvailable]
      simp only [not_or, not_lt, List.length_take]
      omega

theorem receiveMessage_eq {pr : Proto} {bs out : List Nat} {c : Bool}
    (hmax : ¬ MaximumMessageSize < bs.length) (hav : 1 ≤ bs.length) :
    receiveMessage pr ⟨bs, out, c⟩ =
      (if byteAt bs 0 = 0 then receiveFramebufferUpdateMessage pr ⟨bs, out, c⟩
       else if byteAt bs 0 = 1 then receiveColourMapEntriesMessage pr ⟨bs, out, c⟩
       else if byteAt bs 0 = 2 then receiveBellMessage pr ⟨bs, out, c⟩
       else if byteAt bs 0 = 3 then receiveCutTextMessage pr ⟨bs, out, c⟩
       else if byteAt bs 0 = 4 then receiveResizeFramebufferMessage pr ⟨bs, out, c⟩
       else if byteAt bs 0 = 250 then receiveXvpMessage pr ⟨bs, out, c⟩
       else ⟨false, pr, Socket.close ⟨bs, out, c⟩⟩) := by
  rw [receiveMessage]
  rw [show Socket.bytesAvailable ⟨bs, out, c⟩ = bs.length from rfl]
  rw [if_neg hmax, if_neg (by omega)]

theorem fbu_ok {pr : Proto} {s : Socket}
    (h : (receiveFramebufferUpdateMessage pr s).ok = true) :
    ∃ pos region,
      parseRectsLoop (byteAt pr.pixelFormat 0 / 8) pr.fbWidth pr.fbHeight s.input
          (be16 (byteAt s.input 2) (byteAt s.input 3)) 4 [] = .done pos region ∧
      4 ≤ pos ∧ pos ≤ s.input.length ∧
      receiveFramebufferUpdateMessage pr s =
        ⟨true,
         { pr with lastUpdatedRect := boundingRect region, lastMessage := s.input.take pos },
         { s with input := s.input.drop pos }⟩ := by
  rw [receiveFramebufferUpdateMessage] at h ⊢
  by_cases h4 : s.input.length < 4
  · rw [if_pos h4] at h
    exact absurd h (by simp)
  rw [if_neg h4] at h ⊢
  cases hp : parseRectsLoop (byteAt pr.pixelFormat 0 / 8) pr.fbWidth pr.fbHeight s.input
      (be16 (byteAt s.input 2) (byteAt s.input 3)) 4 [] with
  | fatal =>
    rw [hp] at h
    simp only [ParseResult.finish] at h
    exact absurd h (by simp)
  | insufficient =>
    rw [hp] at h
    simp only [ParseResult.finish] at h
    exact absurd h (by simp)
  | done pos region =>
    rw [hp] at h
    simp only [ParseResult.finish] at h ⊢
    obtain ⟨l4, b4, st⟩ := parseRectsLoop_spec hp
    have hpl : pos ≤ s.input.length := b4 (by omega)
    refine ⟨pos, region, rfl, l4, hpl, ?_⟩
    rw [readMessage_spec, if_neg]
    · simp
    · rw [Socket.bytesAvailable]
      simp only [not_or, not_lt]
      omega

@[simp] theorem bytesAvailable_mk (bs out : List Nat) (c : Bool) :
    Socket.bytesAvailable ⟨bs, out, c⟩ = bs.length := rfl

@[simp] theorem peekBytes_mk (bs out : List Nat) (c : Bool) (n : Nat) :
    Socket.peekBytes ⟨bs, out, c⟩ n = bs.take n := rfl

@[simp] theorem readBytes_mk (bs out : List Nat) (c : Bool) (n : Nat) :
    Socket.readBytes ⟨bs, out, c⟩ n = (bs.take n, ⟨bs.drop n, out, c⟩) := rfl

@[simp] theorem writeBytes_mk (bs out l : List Nat) (c : Bool) :
    Socket.writeBytes ⟨bs, out, c⟩ l = ⟨bs, out ++ l, c⟩ := rfl

@[simp] theorem close_mk (bs out : List Nat) (c : Bool) :
    Socket.close ⟨bs, out, c⟩ = ⟨bs, out, true⟩ := rfl

theorem readMessage_noconsume {pr : Proto} {s : Socket} {size : Int}
    (h : (readMessage pr s size).ok = false) : (readMessage pr s size).socket = s := by
  rw [readMessage_spec] at h ⊢
  by_cases hc : ((s.bytesAvailable : Int) < size ∨ size < 0)
  · rw [if_pos hc]
  · rw [if_neg hc] at h
    exact absurd h (by simp)

theorem receiveMessage_noconsume {pr : Proto} {bs out : List Nat}
    (h : (receiveMessage pr ⟨bs, out, false⟩).ok = false)
    (h2 : (receiveMessage pr ⟨bs, out, false⟩).socket.closed = false) :
    (receiveMessage pr ⟨bs, out, false⟩).socket = ⟨bs, out, false⟩ := by
  simp only [receiveMessage, bytesAvailable_mk] at h h2 ⊢
  by_cases hmax : MaximumMessageSize < bs.length
  · rw [if_pos hmax] at h2
    exact absurd h2 (by simp)
  rw [if_neg hmax] at h h2 ⊢
  by_cases hav : bs.length < 1
  · rw [if_pos hav]
  rw [if_neg hav] at h h2 ⊢
  by_cases t0 : byteAt bs 0 = 0
  · rw [if_pos t0] at h h2 ⊢
    simp only [receiveFramebufferUpdateMessage] at h h2 ⊢
    by_cases h4 : bs.length < 4
    · rw [if_pos (by simpa using h4)]
    rw [if_neg (by simpa using h4)] at h h2 ⊢
    cases hp : parseRectsLoop (byteAt pr.pixelFormat 0 / 8) pr.fbWidth pr.fbHeight bs
        (be16 (byteAt bs 2) (byteAt bs 3)) 4 [] with
    | fatal =>
      rw [hp] at h2
      simp only [ParseResult.finish] at h2
      exact absurd h2 (by simp)
    | insufficient =>
      simp only [ParseResult.finish]
    | done pos region =>
      rw [hp] at h
      simp only [ParseResult.finish] at h ⊢
      exact readMessage_noconsume h
  rw [if_neg t0] at h h2 ⊢
  by_cases t1 : byteAt bs 0 = 1
  · rw [if_pos t1] at h h2 ⊢
    simp only [receiveColourMapEntriesMessage, bytesAvailable_mk] at h h2 ⊢
    by_cases h6 : bs.length < 6
    · rw [if_pos h6]
    rw [if_neg h6] at h h2 ⊢
    exact readMessage_noconsume h
  rw [if_neg t1] at h h2 ⊢
  by_cases t2 : byteAt bs 0 = 2
  · rw [if_pos t2] at h h2 ⊢
    rw [receiveBellMessage] at h h2 ⊢
    exact readMessage_noconsume h
  rw [if_neg t2] at h h2 ⊢
  by_cases t3 : byteAt bs 0 = 3
  · rw [if_pos t3] at h h2 ⊢
    simp only [receiveCutTextMessage, bytesAvailable_mk] at h h2 ⊢
    by_cases h8 : bs.length < 8
    · rw [if_pos h8]
    rw [if_neg h8] at h h2 ⊢
    exact readMessage_noconsume h
  rw [if_neg t3] at h h2 ⊢
  by_cases t4 : byteAt bs 0 = 4
  · rw [if_pos t4] at h h2 ⊢
    simp only [receiveResizeFramebufferMessage] at h h2 ⊢
    by_cases hok : (readMessage pr ⟨bs, out, false⟩ 6).ok = true
    · rw [if_pos hok] at h
      exact absurd h (by simp)
    · rw [if_neg hok] at h h2 ⊢
      exact readMessage_noconsume (by simpa using hok)
  rw [if_neg t4] at h h2 ⊢
  by_cases t5 : byteAt bs 0 = 250
  · rw [if_pos t5] at h h2 ⊢
    rw [receiveXvpMessage] at h h2 ⊢
    exact readMessage_noconsume h
  rw [if_neg t5] at h2
  exact absurd h2 (by simp)

theorem colourMap_eq (pr : Proto) (bs out : List Nat) (c : Bool) :
    receiveColourMapEntriesMessage pr ⟨bs, out, c⟩ =
      if bs.length < 6 then ⟨false, pr, ⟨bs, out, c⟩⟩
      else readMessage pr ⟨bs, out, c⟩ ((6 + be16 (byteAt bs 4) (byteAt bs 5) * 6 : Nat) : Int) :=
  rfl

theorem cutText_eq (pr : Proto) (bs out : List Nat) (c : Bool) :
    receiveCutTextMessage pr ⟨bs, out, c⟩ =
      if bs.length < 8 then ⟨false, pr, ⟨bs, out, c⟩⟩
      else readMessage pr ⟨bs, out, c⟩
        (8 + toInt32 (be32 (byteAt bs 4) (byteAt bs 5) (byteAt bs 6) (byteAt bs 7))) :=
  rfl

theorem receiveMessage_main {pr : Proto} {bs out : List Nat}
    (hct : byteAt bs 0 = 3 →
      be32 (byteAt bs 4) (byteAt bs 5) (byteAt bs 6) (byteAt bs 7) < 2147483648)
    (h : (receiveMessage pr ⟨bs, out, false⟩).ok = true) :
    ∃ k, 0 < k ∧ k ≤ bs.length ∧
      (receiveMessage pr ⟨bs, out, false⟩).socket = ⟨bs.drop k, out, false⟩ ∧
      receiveMessage pr ⟨bs.take k, out, false⟩ =
        ⟨true, (receiveMessage pr ⟨bs, out, false⟩).proto, ⟨[], out, false⟩⟩ := by
  have hmax : ¬ MaximumMessageSize < bs.length := by
    intro hc
    rw [receiveMessage] at h
    rw [show Socket.bytesAvailable ⟨bs, out, false⟩ = bs.length from rfl, if_pos hc] at h
    exact absurd h (by simp)
  have hav : 1 ≤ bs.length := by
    by_contra hc
    rw [receiveMessage] at h
    rw [show Socket.bytesAvailable ⟨bs, out, false⟩ = bs.length from rfl,
        if_neg hmax, if_pos (by omega)] at h
    exact absurd h (by simp)
  rw [receiveMessage_eq hmax hav] at h
  by_cases t0 : byteAt bs 0 = 0
  · -- FramebufferUpdate
    rw [if_pos t0] at h
    obtain ⟨pos, region, hp, h4p, hpl, hchar⟩ := fbu_ok h
    have hpl2 : pos ≤ bs.length := hpl
    have hp2 : parseRectsLoop (byteAt pr.pixelFormat 0 / 8) pr.fbWidth pr.fbHeight bs
        (be16 (byteAt bs 2) (byteAt bs 3)) 4 [] = .done pos region := hp
    have hchar2 : receiveFramebufferUpdateMessage pr ⟨bs, out, false⟩ =
        ⟨true, { pr with lastUpdatedRect := boundingRect region, lastMessage := bs.take pos },
         ⟨bs.drop pos, out, false⟩⟩ := hchar
    have hM : receiveMessage pr ⟨bs, out, false⟩ =
        ⟨true, { pr with lastUpdatedRect := boundingRect region, lastMessage := bs.take pos },
         ⟨bs.drop pos, out, false⟩⟩ := by
      rw [receiveMessage_eq hmax hav, if_pos t0, hchar2]
    obtain ⟨l4, b4, st⟩ := parseRectsLoop_spec hp2
    refine ⟨pos, by omega, hpl2, ?_, ?_⟩
    · rw [hM]
    · have hM2 : receiveMessage pr ⟨bs.take pos, out, false⟩ =
          ⟨true, { pr with lastUpdatedRect := boundingRect region, lastMessage := bs.take pos },
           ⟨[], out, false⟩⟩ := by
        rw [receiveMessage_eq (by rw [List.length_take]; omega) (by rw [List.length_take]; omega),
            byteAt_take (by omega : 0 < pos), if_pos t0]
        simp only [receiveFramebufferUpdateMessage]
        rw [if_neg (by rw [List.length_take]; omega),
            byteAt_take (by omega : (2:Nat) < pos), byteAt_take (by omega : (3:Nat) < pos),
            st (bs.take pos) (by rw [List.take_take, Nat.min_self])]
        simp only [ParseResult.finish]
        rw [(sized_consume { pr with lastUpdatedRect := boundingRect region } bs out pos hpl2).2]
      rw [hM2, hM]
  rw [if_neg t0] at h
  by_cases t1 : byteAt bs 0 = 1
  · -- SetColourMapEntries
    rw [if_pos t1, colourMap_eq] at h
    by_cases h6 : bs.length < 6
    · rw [if_pos h6] at h
      exact absurd h (by simp)
    rw [if_neg h6, readMessage_spec] at h
    simp only [bytesAvailable_mk] at h
    set k := 6 + be16 (byteAt bs 4) (byteAt bs 5) * 6 with hkdef
    by_cases hc : ((bs.length : Int) < ((k : Nat) : Int) ∨ (((k : Nat) : Int)) < 0)
    · rw [if_pos hc] at h
      exact absurd h (by simp)
    rw [if_neg hc] at h
    have hkb : k ≤ bs.length := by
      simp only [not_or, not_lt] at hc
      omega
    obtain ⟨hrun, hrerun⟩ := sized_consume pr bs out k hkb
    have hM : receiveMessage pr ⟨bs, out, false⟩ =
        ⟨true, { pr with lastMessage := bs.take k }, ⟨bs.drop k, out, false⟩⟩ := by
      rw [receiveMessage_eq hmax hav, if_neg t0, if_pos t1, colourMap_eq, if_neg h6, ← hkdef,
          hrun]
    refine ⟨k, by omega, hkb, ?_, ?_⟩
    · rw [hM]
    · have hM2 : receiveMessage pr ⟨bs.take k, out, false⟩ =
          ⟨true, { pr with lastMessage := bs.take k }, ⟨[], out, false⟩⟩ := by
        rw [receiveMessage_eq (by rw [List.length_take]; omega) (by rw [List.length_take]; omega),
            byteAt_take (by omega : 0 < k), if_neg t0, if_pos t1, colourMap_eq,
            if_neg (by rw [List.length_take]; omega),
            byteAt_take (by omega : (4:Nat) < k), byteAt_take (by omega : (5:Nat) < k),
            ← hkdef, hrerun]
      rw [hM2, hM]
  rw [if_neg t1] at h
  by_cases t2 : byteAt bs 0 = 2
  · -- Bell
    obtain ⟨hrun, hrerun⟩ := sized_consume pr bs out 1 hav
    simp only [Nat.cast_one] at hrun hrerun
    have hM : receiveMessage pr ⟨bs, out, false⟩ =
        ⟨true, { pr with lastMessage := bs.take 1 }, ⟨bs.drop 1, out, false⟩⟩ := by
      rw [receiveMessage_eq hmax hav, if_neg t0, if_neg t1, if_pos t2, receiveBellMessage, hrun]
    refine ⟨1, Nat.one_pos, hav, ?_, ?_⟩
    · rw [hM]
    · have hM2 : receiveMessage pr ⟨bs.take 1, out, false⟩ =
          ⟨true, { pr with lastMessage := bs.take 1 }, ⟨[], out, false⟩⟩ := by
        rw [receiveMessage_eq (by rw [List.length_take]; omega) (by rw [List.length_take]; omega),
            byteAt_take Nat.one_pos, if_neg t0, if_neg t1, if_pos t2, receiveBellMessage, hrerun]
      rw [hM2, hM]
  rw [if_neg t2] at h
  by_cases t3 : byteAt bs 0 = 3
  · -- ServerCutText
    rw [if_pos t3, cutText_eq] at h
    by_cases h8 : bs.length < 8
    · rw [if_pos h8] at h
      exact absurd h (by simp)
    rw [if_neg h8] at h
    have hL := hct t3
    have hcast : (8 + toInt32 (be32 (byteAt bs 4) (byteAt bs 5) (byteAt bs 6) (byteAt bs 7))) =
        (((8 + be32 (byteAt bs 4) (byteAt bs 5) (byteAt bs 6) (byteAt bs 7) : Nat)) : Int) := by
      rw [toInt32, if_pos hL]
      push_cast
      ring
    rw [hcast, readMessage_spec] at h
    simp only [bytesAvailable_mk] at h
    set k := 8 + be32 (byteAt bs 4) (byteAt bs 5) (byteAt bs 6) (byteAt bs 7) with hkdef
    by_cases hc : ((bs.length : Int) < ((k : Nat) : Int) ∨ (((k : Nat) : Int)) < 0)
    · rw [if_pos hc] at h
      exact absurd h (by simp)
    rw [if_neg hc] at h
    have hkb : k ≤ bs.length := by
      simp only [not_or, not_lt] at hc
      omega
    obtain ⟨hrun, hrerun⟩ := sized_consume pr bs out k hkb
    have hM : receiveMessage pr ⟨bs, out, false⟩ =
        ⟨true, { pr with lastMessage := bs.take k }, ⟨bs.drop k, out, false⟩⟩ := by
      rw [receiveMessage_eq hmax hav, if_neg t0, if_neg t1, if_neg t2, if_pos t3, cutText_eq,
          if_neg h8, hcast, hrun]
    refine ⟨k, by omega, hkb, ?_, ?_⟩
    · rw [hM]
    · have hM2 : receiveMessage pr ⟨bs.take k, out, false⟩ =
          ⟨true, { pr with lastMessage := bs.take k }, ⟨[], out, false⟩⟩ := by
        have hcast2 : (8 + toInt32 (be32 (byteAt (bs.take k) 4) (byteAt (bs.take k) 5)
            (byteAt (bs.take k) 6) (byteAt (bs.take k) 7))) = (((k : Nat)) : Int) := by
          rw [byteAt_take (by omega : (4:Nat) < k), byteAt_take (by omega : (5:Nat) < k),
              byteAt_take (by omega : (6:Nat) < k), byteAt_take (by omega : (7:Nat) < k),
              toInt32, if_pos hL, hkdef]
          push_cast
          ring
        rw [receiveMessage_eq (by rw [List.length_take]; omega) (by rw [List.length_take]; omega),
            byteAt_take (by omega : 0 < k), if_neg t0, if_neg t1, if_neg t2, if_pos t3,
            cutText_eq, if_neg (by rw [List.length_take]; omega), hcast2, hrerun]
      rw [hM2, hM]
  rw [if_neg t3] at h
  by_cases t4 : byteAt bs 0 = 4
  · -- ResizeFrameBuffer
    rw [if_pos t4] at h
    simp only [receiveResizeFramebufferMessage] at h
    by_cases h6b : 6 ≤ bs.length
    · obtain ⟨hrun, hrerun⟩ := sized_consume pr bs out 6 h6b
      simp only [Nat.cast_ofNat] at hrun hrerun
      have hM : receiveMessage pr ⟨bs, out, false⟩ =
          ⟨true,
           { pr with
              lastMessage := bs.take 6,
              fbWidth := be16 (byteAt (bs.take 6) 2) (byteAt (bs.take 6) 3),
              fbHeight := be16 (byteAt (bs.take 6) 4) (byteAt (bs.take 6) 5) },
           ⟨bs.drop 6, out, false⟩⟩ := by
        rw [receiveMessage_eq hmax hav, if_neg t0, if_neg t1, if_neg t2, if_neg t3, if_pos t4]
        simp only [receiveResizeFramebufferMessage]
        rw [hrun]
        simp
      refine ⟨6, by omega, h6b, ?_, ?_⟩
      · rw [hM]
      · have hM2 : receiveMessage pr ⟨bs.take 6, out, false⟩ =
            ⟨true,
             { pr with
                lastMessage := bs.take 6,
                fbWidth := be16 (byteAt (bs.take 6) 2) (byteAt (bs.take 6) 3),
                fbHeight := be16 (byteAt (bs.take 6) 4) (byteAt (bs.take 6) 5) },
             ⟨[], out, false⟩⟩ := by
          rw [receiveMessage_eq (by rw [List.length_take]; omega) (by rw [List.length_take]; omega),
              byteAt_take (by omega : (0:Nat) < 6), if_neg t0, if_neg t1, if_neg t2, if_neg t3,
              if_pos t4]
          simp only [receiveResizeFramebufferMessage]
          rw [hrerun]
          simp
        rw [hM2, hM]
    · exfalso
      have hf : (readMessage pr ⟨bs, out, false⟩ 6).ok = false := by
        rw [readMessage_spec, if_pos (Or.inl (by simp only [bytesAvailable_mk]; omega))]
      rw [if_neg (by simp [hf]), hf] at h
      exact absurd h (by simp)
  rw [if_neg t4] at h
  by_cases t5 : byteAt bs 0 = 250
  · -- Xvp
    rw [if_pos t5, receiveXvpMessage] at h
    have h4b : 4 ≤ bs.length := by
      by_contra hc
      rw [readMessage_spec, if_pos (Or.inl (by simp only [bytesAvailable_mk]; omega))] at h
      exact absurd h (by simp)
    obtain ⟨hrun, hrerun⟩ := sized_consume pr bs out 4 h4b
    simp only [Nat.cast_ofNat] at hrun hrerun
    have hM : receiveMessage pr ⟨bs, out, false⟩ =
        ⟨true, { pr with lastMessage := bs.take 4 }, ⟨bs.drop 4, out, false⟩⟩ := by
      rw [receiveMessage_eq hmax hav, if_neg t0, if_neg t1, if_neg t2, if_neg t3, if_neg t4,
          if_pos t5, receiveXvpMessage, hrun]
    refine ⟨4, by omega, h4b, ?_, ?_⟩
    · rw [hM]
    · have hM2 : receiveMessage pr ⟨bs.take 4, out, false⟩ =
          ⟨true, { pr with lastMessage := bs.take 4 }, ⟨[], out, false⟩⟩ := by
        rw [receiveMessage_eq (by rw [List.length_take]; omega) (by rw [List.length_take]; omega),
            byteAt_take (by omega : (0:Nat) < 4), if_neg t0, if_neg t1, if_neg t2, if_neg t3,
            if_neg t4, if_pos t5, receiveXvpMessage, hrerun]
      rw [hM2, hM]
  rw [if_neg t5] at h
  exact absurd h (by simp)

/-! ### Claim theorems -/

theorem contains_iff_mem {l : List Nat} {a : Nat} : l.contains a = true ↔ a ∈ l :=
  List.elem_iff

/-- C1 (amended): a `read()` call that returns `false` and leaves the transport
open has consumed nothing, so the identical call can be retried once more
bytes arrive.  (As stated, the claim fails in the SecurityTypeSelection state:
a partially delivered type list returns `false` only after consuming the count
byte and the partial list and fatally closing the transport; see the
counterexample.) -/
theorem C1_open_failure_consumes_nothing (des : DesFn) (pr : Proto) (bs out : List Nat)
    (hok : (readStep des pr ⟨bs, out, false⟩).ok = false)
    (hopen : (readStep des pr ⟨bs, out, false⟩).socket.closed = false) :
    (readStep des pr ⟨bs, out, false⟩).socket.input = bs := by
  rw [readStep] at hok hopen ⊢
  by_cases s1 : pr.state = .Protocol
  · rw [if_pos s1] at hok hopen ⊢
    simp only [readProtocol, bytesAvailable_mk, readBytes_mk] at hok hopen ⊢
    by_cases h12 : bs.length = 12
    · rw [if_pos h12] at hok hopen ⊢
      have hlen : (List.take 12 bs).length = 12 := by
        rw [List.length_take]
        omega
      rw [if_neg (show ¬((List.take 12 bs).length ≠ 12) from fun hne => hne hlen)] at hok hopen ⊢
      by_cases hv : (versionMatch (List.take 12 bs) = true ∧
          versionMajor (List.take 12 bs) = 3 ∧ 7 ≤ versionMinor (List.take 12 bs))
      · rw [if_pos hv] at hok
        exact absurd hok (by simp)
      · rw [if_neg hv] at hopen
        simp at hopen
    · rw [if_neg h12]
  rw [if_neg s1] at hok hopen ⊢
  by_cases s2 : pr.state = .SecurityInit
  · rw [if_pos s2] at hok hopen ⊢
    simp only [receiveSecurityTypes, bytesAvailable_mk, readBytes_mk] at hok hopen ⊢
    by_cases h2 : 2 ≤ bs.length
    · rw [if_pos h2] at hok hopen ⊢
      by_cases hc0 : byteAt (List.take 1 bs) 0 = 0
      · rw [if_pos hc0] at hopen
        simp at hopen
      rw [if_neg hc0] at hok hopen ⊢
      by_cases hlen : (List.take (byteAt (List.take 1 bs) 0) (List.drop 1 bs)).length ≠
          byteAt (List.take 1 bs) 0
      · rw [if_pos hlen] at hopen
        simp at hopen
      rw [if_neg hlen] at hok hopen ⊢
      by_cases hv2 : (List.take (byteAt (List.take 1 bs) 0) (List.drop 1 bs)).contains 2 = true
      · rw [if_pos hv2] at hok
        exact absurd hok (by simp)
      rw [if_neg hv2] at hok hopen ⊢
      by_cases hv1 : (List.take (byteAt (List.take 1 bs) 0) (List.drop 1 bs)).contains 1 = true
      · rw [if_pos hv1] at hok
        exact absurd hok (by simp)
      rw [if_neg hv1] at hopen
      simp at hopen
    · rw [if_neg h2]
  rw [if_neg s2] at hok hopen ⊢
  by_cases s3 : pr.state = .SecurityChallenge
  · rw [if_pos s3] at hok hopen ⊢
    simp only [receiveSecurityChallenge, bytesAvailable_mk, readBytes_mk] at hok ⊢
    by_cases h16 : 16 ≤ bs.length
    · rw [if_pos h16] at hok
      exact absurd hok (by simp)
    · rw [if_neg h16]
  rw [if_neg s3] at hok hopen ⊢
  by_cases s4 : pr.state = .SecurityResult
  · rw [if_pos s4] at hok hopen ⊢
    simp only [receiveSecurityResult, bytesAvailable_mk, readBytes_mk] at hok hopen ⊢
    by_cases h4 : 4 ≤ bs.length
    · rw [if_pos h4] at hok hopen
      by_cases hbe : be32 (byteAt (List.take 4 bs) 0) (byteAt (List.take 4 bs) 1)
          (byteAt (List.take 4 bs) 2) (byteAt (List.take 4 bs) 3) ≠ 0
      · rw [if_pos hbe] at hopen
        simp at hopen
      · rw [if_neg hbe] at hok
        exact absurd hok (by simp)
    · rw [if_neg h4]
  rw [if_neg s4] at hok hopen ⊢
  by_cases s5 : pr.state = .FramebufferInit
  · rw [if_pos s5] at hok hopen ⊢
    simp only [receiveServerInitMessage, bytesAvailable_mk, peekBytes_mk, readBytes_mk] at hok hopen ⊢
    by_cases h24 : 24 ≤ bs.length
    · rw [if_pos h24] at hok hopen ⊢
      by_cases hnl : 255 < be32 (byteAt (List.take 24 bs) 20) (byteAt (List.take 24 bs) 21)
          (byteAt (List.take 24 bs) 22) (byteAt (List.take 24 bs) 23)
      · rw [if_pos hnl] at hopen
        simp at hopen
      rw [if_neg hnl] at hok hopen ⊢
      by_cases hpk : (List.take (be32 (byteAt (List.take 24 bs) 20) (byteAt (List.take 24 bs) 21)
          (byteAt (List.take 24 bs) 22) (byteAt (List.take 24 bs) 23)) bs).length =
          be32 (byteAt (List.take 24 bs) 20) (byteAt (List.take 24 bs) 21)
            (byteAt (List.take 24 bs) 22) (byteAt (List.take 24 bs) 23)
      · rw [if_pos hpk] at hok
        exact absurd hok (by simp)
      · rw [if_neg hpk]
    · rw [if_neg h24]
  rw [if_neg s5]

theorem C1_witness :
    (readStep desId proto0 ⟨[1, 2, 3], [], false⟩).socket.input = [1, 2, 3] :=
  C1_open_failure_consumes_nothing desId proto0 [1, 2, 3] [] (by decide) (by decide)

/-- C1 counterexample: in the SecurityTypeSelection state with buffered bytes
`[2, 2]` (count 2, only one type byte delivered), `read()` returns `false`
because fewer bytes are available than the type list requires, yet the unread
byte count drops from 2 to 0 (both bytes are consumed) and the transport is
closed — contradicting the claim that such a call leaves the unread byte
count unchanged. -/
theorem C1_counterexample :
    (readStep desId { proto0 with state := .SecurityInit } ⟨[2, 2], [], false⟩).ok = false ∧
    (readStep desId { proto0 with state := .SecurityInit } ⟨[2, 2], [], false⟩).socket.input = [] ∧
    (readStep desId { proto0 with state := .SecurityInit } ⟨[2, 2], [], false⟩).socket.closed =
      true := by
  decide

/-- C2 counterexample: the same valid server stream (the version line
`RFB 003.008\n` followed by the security-type list `[1]`) delivered in one
chunk versus two chunks produces different state machines.  Delivered all at
once, `readProtocol` sees 14 buffered bytes, fails its `bytesAvailable() == 12`
test forever and the connection stays wedged in ProtocolVersion with nothing
consumed; delivered as 12 bytes and then 2 bytes, the machine advances to
SecurityResult.  Chunk-size independence therefore fails as claimed. -/
theorem C2_counterexample :
    (deliverChunks desId [versionRfb38 ++ [1, 1]] proto0 ⟨[], [], false⟩).1.state =
        .Protocol ∧
      (deliverChunks desId [versionRfb38 ++ [1, 1]] proto0 ⟨[], [], false⟩).2.input.length = 14 ∧
      (deliverChunks desId [versionRfb38, [1, 1]] proto0 ⟨[], [], false⟩).1.state =
        .SecurityResult := by
  decide

/-- C2 (amended): chunk-size independence holds from SecurityChallenge onward
in the handshake.  In the SecurityChallenge and SecurityResult states a
successful `read()` consumes the same bytes and produces the same successor
state and output no matter how many further stream bytes have already
arrived, and a failed `read()` that leaves the transport open has changed
nothing; in FramebufferInit the same extension property holds provided the
whole server-init message (header plus declared name) is buffered.  It fails
at ProtocolVersion (`read()` demands exactly 12 buffered bytes, see the
counterexample) and at SecurityTypeSelection (a partially delivered type list
is fatal). -/
theorem C2_chunk_extension (des : DesFn) (pr : Proto) (bs ext out : List Nat) :
    ((pr.state = .SecurityChallenge ∨ pr.state = .SecurityResult) →
      (((readStep des pr ⟨bs, out, false⟩).ok = true →
          readStep des pr ⟨bs ++ ext, out, false⟩ =
            ⟨true, (readStep des pr ⟨bs, out, false⟩).proto,
             ⟨(readStep des pr ⟨bs, out, false⟩).socket.input ++ ext,
              (readStep des pr ⟨bs, out, false⟩).socket.output, false⟩⟩) ∧
        ((readStep des pr ⟨bs, out, false⟩).ok = false →
          (readStep des pr ⟨bs, out, false⟩).socket.closed = false →
          (readStep des pr ⟨bs, out, false⟩).socket = ⟨bs, out, false⟩))) ∧
    (pr.state = .FramebufferInit →
      (readStep des pr ⟨bs, out, false⟩).ok = true →
      24 + be32 (byteAt bs 20) (byteAt bs 21) (byteAt bs 22) (byteAt bs 23) ≤ bs.length →
      readStep des pr ⟨bs ++ ext, out, false⟩ =
        ⟨true, (readStep des pr ⟨bs, out, false⟩).proto,
         ⟨(readStep des pr ⟨bs, out, false⟩).socket.input ++ ext,
          (readStep des pr ⟨bs, out, false⟩).socket.output, false⟩⟩) := by
  constructor
  · intro hst
    cases hst with
    | inl hch =>
      have hrs : ∀ s : Socket, readStep des pr s = receiveSecurityChallenge des pr s := by
        intro s
        rw [readStep, if_neg (by rw [hch]; intro hc; cases hc),
            if_neg (by rw [hch]; intro hc; cases hc), if_pos hch]
      constructor
      · intro hok
        simp only [hrs] at hok ⊢
        simp only [receiveSecurityChallenge, bytesAvailable_mk, readBytes_mk, writeBytes_mk] at hok ⊢
        by_cases h16 : 16 ≤ bs.length
        · rw [if_pos h16,
              if_pos (show (16:Nat) ≤ (bs ++ ext).length by rw [List.length_append]; omega),
              List.take_append_of_le_length h16, List.drop_append_of_le_length h16]
        · rw [if_neg h16] at hok
          exact absurd hok (by simp)
      · intro hok hopen
        simp only [hrs] at hok hopen ⊢
        simp only [receiveSecurityChallenge, bytesAvailable_mk, readBytes_mk, writeBytes_mk] at hok hopen ⊢
        by_cases h16 : 16 ≤ bs.length
        · rw [if_pos h16] at hok
          exact absurd hok (by simp)
        · rw [if_neg h16]
    | inr hres =>
      have hrs : ∀ s : Socket, readStep des pr s = receiveSecurityResult pr s := by
        intro s
        rw [readStep, if_neg (by rw [hres]; intro hc; cases hc),
            if_neg (by rw [hres]; intro hc; cases hc),
            if_neg (by rw [hres]; intro hc; cases hc), if_pos hres]
      constructor
      · intro hok
        simp only [hrs] at hok ⊢
        simp only [receiveSecurityResult, bytesAvailable_mk, readBytes_mk, writeBytes_mk] at hok ⊢
        by_cases h4 : 4 ≤ bs.length
        · rw [if_pos h4] at hok
          rw [if_pos h4,
              if_pos (show (4:Nat) ≤ (bs ++ ext).length by rw [List.length_append]; omega),
              List.take_append_of_le_length h4, List.drop_append_of_le_length h4]
          by_cases hbe : be32 (byteAt (List.take 4 bs) 0) (byteAt (List.take 4 bs) 1)
              (byteAt (List.take 4 bs) 2) (byteAt (List.take 4 bs) 3) ≠ 0
          · rw [if_pos hbe] at hok
            exact absurd hok (by simp)
          · simp only [if_neg hbe]
        · rw [if_neg h4] at hok
          exact absurd hok (by simp)
      · intro hok hopen
        simp only [hrs] at hok hopen ⊢
        simp only [receiveSecurityResult, bytesAvailable_mk, readBytes_mk, writeBytes_mk] at hok hopen ⊢
        by_cases h4 : 4 ≤ bs.length
        · rw [if_pos h4] at hok hopen
          by_cases hbe : be32 (byteAt (List.take 4 bs) 0) (byteAt (List.take 4 bs) 1)
              (byteAt (List.take 4 bs) 2) (byteAt (List.take 4 bs) 3) ≠ 0
          · rw [if_pos hbe] at hopen
            simp at hopen
          · rw [if_neg hbe] at hok
            exact absurd hok (by simp)
        · rw [if_neg h4]
  · intro hfb hok hfull
    have hrs : ∀ s : Socket, readStep des pr s = receiveServerInitMessage pr s := by
      intro s
      rw [readStep, if_neg (by rw [hfb]; intro hc; cases hc),
          if_neg (by rw [hfb]; intro hc; cases hc),
          if_neg (by rw [hfb]; intro hc; cases hc),
          if_neg (by rw [hfb]; intro hc; cases hc), if_pos hfb]
    simp only [hrs] at hok ⊢
    simp only [receiveServerInitMessage, bytesAvailable_mk, peekBytes_mk, readBytes_mk] at hok ⊢
    have h24 : 24 ≤ bs.length := by omega
    have h24e : (24:Nat) ≤ (bs ++ ext).length := by
      rw [List.length_append]
      omega
    have hnl24 : be32 (byteAt (List.take 24 bs) 20) (byteAt (List.take 24 bs) 21)
        (byteAt (List.take 24 bs) 22) (byteAt (List.take 24 bs) 23) =
        be32 (byteAt bs 20) (byteAt bs 21) (byteAt bs 22) (byteAt bs 23) := by
      rw [byteAt_take (by omega), byteAt_take (by omega), byteAt_take (by omega),
          byteAt_take (by omega)]
    rw [if_pos h24, hnl24] at hok
    rw [if_pos h24, if_pos h24e, List.take_append_of_le_length h24, hnl24]
    by_cases hnl : 255 < be32 (byteAt bs 20) (byteAt bs 21) (byteAt bs 22) (byteAt bs 23)
    · rw [if_pos hnl] at hok
      exact absurd hok (by simp)
    simp only [if_neg hnl] at hok ⊢
    rw [if_pos (show (List.take (be32 (byteAt bs 20) (byteAt bs 21) (byteAt bs 22) (byteAt bs 23))
        (bs ++ ext)).length = be32 (byteAt bs 20) (byteAt bs 21) (byteAt bs 22) (byteAt bs 23) by
      rw [List.length_take, List.length_append]; omega)]
    rw [if_pos (show (List.take (be32 (byteAt bs 20) (byteAt bs 21) (byteAt bs 22) (byteAt bs 23))
        bs).length = be32 (byteAt bs 20) (byteAt bs 21) (byteAt bs 22) (byteAt bs 23) by
      rw [List.length_take]; omega)] at hok ⊢
    rw [List.take_append_of_le_length (show 24 + be32 (byteAt bs 20) (byteAt bs 21)
          (byteAt bs 22) (byteAt bs 23) ≤ bs.length from hfull),
        List.drop_append_of_le_length hfull]

theorem C2_witness :
    readStep desId { proto0 with state := .SecurityChallenge }
        ⟨List.replicate 16 0 ++ [9], [], false⟩ =
      ⟨true,
       (readStep desId { proto0 with state := .SecurityChallenge }
           ⟨List.replicate 16 0, [], false⟩).proto,
       ⟨(readStep desId { proto0 with state := .SecurityChallenge }
           ⟨List.replicate 16 0, [], false⟩).socket.input ++ [9],
        (readStep desId { proto0 with state := .SecurityChallenge }
           ⟨List.replicate 16 0, [], false⟩).socket.output, false⟩⟩ :=
  ((C2_chunk_extension desId { proto0 with state := .SecurityChallenge }
      (List.replicate 16 0) [9] []).1 (Or.inl rfl)).1 (by decide)

/-- C3 counterexample: in the Running state with a complete Bell message (the
single byte `[2]`) fully buffered, `read()` returns `false` and consumes
nothing — the `Running` state is simply not handled by the `read()` switch —
while the separate `receiveMessage()` entry point consumes the complete
message and returns `true`.  So a `read()` call does not return `true` when a
complete application-level message is available and consumed. -/
theorem C3_counterexample :
    (readStep desId protoRun ⟨[2], [], false⟩).ok = false ∧
    (readStep desId protoRun ⟨[2], [], false⟩).socket.input = [2] ∧
    (receiveMessage protoRun ⟨[2], [], false⟩).ok = true ∧
    (receiveMessage protoRun ⟨[2], [], false⟩).socket.input = [] := by
  decide

/-- C3 (amended): in the Running state `read()` itself always returns `false`
and consumes nothing; application messages are consumed by the separate
`receiveMessage()` entry point, which returns `true` iff a complete message
was consumed: when it returns `true`, the consumed prefix is nonempty and is
itself a complete message (replaying `receiveMessage()` on exactly those bytes
succeeds, consumes all of them and produces the same protocol state), and
when it returns `false` with the transport left open, nothing was consumed.
The ServerCutText hypothesis excludes declared lengths at least 2^31, where
the source's uint32-to-int cast makes it consume a wrong byte count. -/
theorem C3_running_message_consumption (des : DesFn) (pr : Proto) (bs out : List Nat)
    (hst : pr.state = .Running)
    (hct : byteAt bs 0 = 3 →
      be32 (byteAt bs 4) (byteAt bs 5) (byteAt bs 6) (byteAt bs 7) < 2147483648) :
    readStep des pr ⟨bs, out, false⟩ = ⟨false, pr, ⟨bs, out, false⟩⟩ ∧
    ((receiveMessage pr ⟨bs, out, false⟩).ok = true →
      ∃ k, 0 < k ∧ k ≤ bs.length ∧
        (receiveMessage pr ⟨bs, out, false⟩).socket = ⟨bs.drop k, out, false⟩ ∧
        receiveMessage pr ⟨bs.take k, out, false⟩ =
          ⟨true, (receiveMessage pr ⟨bs, out, false⟩).proto, ⟨[], out, false⟩⟩) ∧
    ((receiveMessage pr ⟨bs, out, false⟩).ok = false →
      (receiveMessage pr ⟨bs, out, false⟩).socket.closed = false →
      (receiveMessage pr ⟨bs, out, false⟩).socket = ⟨bs, out, false⟩) := by
  refine ⟨?_, fun h => receiveMessage_main hct h, fun h h2 => receiveMessage_noconsume h h2⟩
  rw [readStep, if_neg (by rw [hst]; intro hc; cases hc),
      if_neg (by rw [hst]; intro hc; cases hc), if_neg (by rw [hst]; intro hc; cases hc),
      if_neg (by rw [hst]; intro hc; cases hc), if_neg (by rw [hst]; intro hc; cases hc)]

theorem C3_witness :
    readStep desId protoRun ⟨[2], [], false⟩ = ⟨false, protoRun, ⟨[2], [], false⟩⟩ ∧
    (∃ k, 0 < k ∧ k ≤ ([2] : List Nat).length ∧
      (receiveMessage protoRun ⟨[2], [], false⟩).socket = ⟨([2] : List Nat).drop k, [], false⟩ ∧
      receiveMessage protoRun ⟨([2] : List Nat).take k, [], false⟩ =
        ⟨true, (receiveMessage protoRun ⟨[2], [], false⟩).proto, ⟨[], [], false⟩⟩) := by
  have h := C3_running_message_consumption desId protoRun [2] [] rfl (by decide)
  exact ⟨h.1, h.2.1 (by decide)⟩

theorem key_pad (passwd : List Nat) :
    ((List.range 8).map fun i => if i < passwd.length then byteAt passwd i else 0) =
      (passwd ++ List.replicate 8 0).take 8 := by
  apply List.ext_getElem
  · simp [List.length_take]
  · intro i h1 h2
    rw [List.getElem_map, List.getElem_range, List.getElem_take]
    simp only [List.length_map, List.length_range] at h1
    by_cases hi : i < passwd.length
    · rw [if_pos hi, List.getElem_append_left hi, byteAt, List.getD_eq_getElem passwd 0 hi]
    · rw [if_neg hi, List.getElem_append_right (by omega),
          List.getElem_replicate]

/-- C5: in the SecurityChallenge state, once the 16-byte challenge is
buffered, `read()` consumes exactly those 16 bytes and writes back the
challenge encrypted per 8-byte block by the supplied DES primitive, keyed with
the password null-padded (or truncated) to exactly 8 bytes, then advances to
SecurityResult. -/
theorem C5_des_challenge_response (des : DesFn) (pr : Proto) (bs out : List Nat)
    (hst : pr.state = .SecurityChallenge) (h16 : 16 ≤ bs.length) :
    readStep des pr ⟨bs, out, false⟩ =
      ⟨true, { pr with state := .SecurityResult },
       ⟨bs.drop 16,
        out ++ (des ((pr.vncPassword ++ List.replicate 8 0).take 8) (bs.take 8) ++
                des ((pr.vncPassword ++ List.replicate 8 0).take 8) ((bs.drop 8).take 8)),
        false⟩⟩ := by
  rw [readStep, if_neg (by rw [hst]; intro hc; cases hc),
      if_neg (by rw [hst]; intro hc; cases hc), if_pos hst]
  simp only [receiveSecurityChallenge, bytesAvailable_mk, readBytes_mk, writeBytes_mk]
  rw [if_pos h16]
  rw [vncEncryptBytes]
  have e1 : (List.take 16 bs).take 8 = bs.take 8 := by
    rw [List.take_take]
    norm_num
  have e2 : ((List.take 16 bs).drop 8).take 8 = (bs.drop 8).take 8 := by
    rw [List.drop_take, List.take_take]
    norm_num
  rw [e1, e2, key_pad]

theorem C5_witness :
    readStep desKeyTag { proto0 with state := .SecurityChallenge, vncPassword := [112, 119] }
        ⟨List.range 17, [7], false⟩ =
      ⟨true, { proto0 with state := .SecurityResult, vncPassword := [112, 119] },
       ⟨(List.range 17).drop 16,
        [7] ++ (desKeyTag (([112, 119] ++ List.replicate 8 0).take 8) ((List.range 17).take 8) ++
                desKeyTag (([112, 119] ++ List.replicate 8 0).take 8)
                  (((List.range 17).drop 8).take 8)),
        false⟩⟩ :=
  C5_des_challenge_response desKeyTag
    { proto0 with state := .SecurityChallenge, vncPassword := [112, 119] }
    (List.range 17) [7] rfl (by decide)

/-- C6: version negotiation accepts the 12-byte lines `RFB 003.008\n` and
`RFB 003.889\n` (echoing them back and advancing to security-type selection)
and fatally rejects `RFB 002.000\n` (major version not 3) and `RFB 003.003\n`
(minor version below 7), consuming the line and closing the transport. -/
theorem C6_version_negotiation :
    readStep desId proto0 ⟨versionRfb38, [], false⟩ =
      ⟨true, { proto0 with state := .SecurityInit }, ⟨[], versionRfb38, false⟩⟩ ∧
    readStep desId proto0 ⟨versionRfb3889, [], false⟩ =
      ⟨true, { proto0 with state := .SecurityInit }, ⟨[], versionRfb3889, false⟩⟩ ∧
    readStep desId proto0 ⟨versionRfb20, [], false⟩ = ⟨false, proto0, ⟨[], [], true⟩⟩ ∧
    readStep desId proto0 ⟨versionRfb33, [], false⟩ = ⟨false, proto0, ⟨[], [], true⟩⟩ := by
  decide

/-- C9: a Hextile tile whose sub-encoding flag byte has the Raw bit set
consumes exactly `1 + w * h * bytesPerPixel` bytes: the tile parse succeeds
(returning the cursor advanced past the flag byte and the raw pixel block)
precisely when that many bytes are buffered at the cursor, and fails when the
buffer ends earlier.  Tile dimensions are at most 16 and the pixel size at
most 31 bytes, so the 32-bit size check of the source never truncates. -/
theorem C9_hextile_raw_tile (d : List Nat) (pos w h bpp : Nat)
    (hflag : byteAt d pos = 1) (hpos : pos < d.length)
    (hw : w ≤ 16) (hh : h ≤ 16) (hbpp : bpp ≤ 31) :
    (pos + 1 + w * h * bpp ≤ d.length →
      hextileTile d pos w h bpp = some (pos + 1 + w * h * bpp)) ∧
    (d.length < pos + 1 + w * h * bpp → hextileTile d pos w h bpp = none) := by
  have h1 : w * h ≤ 16 * 16 := Nat.mul_le_mul hw hh
  have h2 : w * h * bpp ≤ 16 * 16 * 31 := Nat.mul_le_mul h1 hbpp
  have hsz : w * h * bpp < 2147483648 := by omega
  constructor
  · intro hn
    simp only [hextileTile, hflag]
    rw [if_pos (by omega), if_pos (by decide), readChk, if_pos ⟨hsz, hn⟩]
  · intro hn
    simp only [hextileTile, hflag]
    rw [if_pos (by omega), if_pos (by decide), readChk, if_neg (fun hc => by omega)]

theorem C9_witness :
    hextileTile [1, 5, 5, 5, 5, 5, 5] 0 2 3 1 = some 7 ∧
    hextileTile [1, 5] 0 2 3 1 = none :=
  ⟨(C9_hextile_raw_tile [1, 5, 5, 5, 5, 5, 5] 0 2 3 1 rfl (by decide) (by decide)
      (by decide) (by decide)).1 (by decide),
   (C9_hextile_raw_tile [1, 5] 0 2 3 1 rfl (by decide) (by decide) (by decide)
      (by decide)).2 (by decide)⟩

/-- C10: in the FramebufferInit state, when the 24-byte server-init header is
buffered but the declared (acceptable, at most 255) name length exceeds the
buffered byte count, `read()` returns `false` without consuming bytes or
closing, yet the stored pixel format has already been overwritten with the 16
format bytes of the peeked header; the state and geometry are unchanged. -/
theorem C10_pixel_format_overwritten_on_false (des : DesFn) (pr : Proto) (bs out : List Nat)
    (hst : pr.state = .FramebufferInit) (h24 : 24 ≤ bs.length)
    (hnl : be32 (byteAt bs 20) (byteAt bs 21) (byteAt bs 22) (byteAt bs 23) ≤ 255)
    (hshort : bs.length < be32 (byteAt bs 20) (byteAt bs 21) (byteAt bs 22) (byteAt bs 23)) :
    readStep des pr ⟨bs, out, false⟩ =
      ⟨false, { pr with pixelFormat := (bs.drop 4).take 16 }, ⟨bs, out, false⟩⟩ := by
  rw [readStep, if_neg (by rw [hst]; intro hc; cases hc),
      if_neg (by rw [hst]; intro hc; cases hc), if_neg (by rw [hst]; intro hc; cases hc),
      if_neg (by rw [hst]; intro hc; cases hc), if_pos hst]
  simp only [receiveServerInitMessage, bytesAvailable_mk, peekBytes_mk, readBytes_mk]
  have hnl24 : be32 (byteAt (List.take 24 bs) 20) (byteAt (List.take 24 bs) 21)
      (byteAt (List.take 24 bs) 22) (byteAt (List.take 24 bs) 23) =
      be32 (byteAt bs 20) (byteAt bs 21) (byteAt bs 22) (byteAt bs 23) := by
    rw [byteAt_take (by omega), byteAt_take (by omega), byteAt_take (by omega),
        byteAt_take (by omega)]
  rw [if_pos h24, hnl24, if_neg (Nat.not_lt.mpr hnl),
      if_neg (show ¬(List.take (be32 (byteAt bs 20) (byteAt bs 21) (byteAt bs 22)
          (byteAt bs 23)) bs).length = be32 (byteAt bs 20) (byteAt bs 21) (byteAt bs 22)
          (byteAt bs 23) by rw [List.length_take]; omega)]
  have hpf : ((List.take 24 bs).drop 4).take 16 = (bs.drop 4).take 16 := by
    rw [List.drop_take, List.take_take]
    norm_num
  rw [hpf]

theorem C10_witness :
    readStep desId { proto0 with state := .FramebufferInit }
        ⟨[0, 100, 0, 50, 1, 2, 3, 4, 5, 6, 7, 8, 9, 10, 11, 12, 13, 14, 15, 16, 0, 0, 0, 30],
         [], false⟩ =
      ⟨false,
       { proto0 with
          state := .FramebufferInit,
          pixelFormat := [1, 2, 3, 4, 5, 6, 7, 8, 9, 10, 11, 12, 13, 14, 15, 16] },
       ⟨[0, 100, 0, 50, 1, 2, 3, 4, 5, 6, 7, 8, 9, 10, 11, 12, 13, 14, 15, 16, 0, 0, 0, 30],
        [], false⟩⟩ :=
  C10_pixel_format_overwritten_on_false desId { proto0 with state := .FramebufferInit }
    [0, 100, 0, 50, 1, 2, 3, 4, 5, 6, 7, 8, 9, 10, 11, 12, 13, 14, 15, 16, 0, 0, 0, 30]
    [] rfl (by decide) (by decide) (by decide)

/-- C8: the server-init name length boundary sits exactly at 255.  In the
FramebufferInit state with the 24-byte header buffered, a declared name
length of 256 or more makes `read()` return `false` and close the transport
without consuming anything, while a header declaring exactly 255 followed by
the 255 name bytes is accepted: `read()` consumes exactly `24 + 255` bytes,
stores the pixel format, geometry and the full server-init message, and
advances to Running. -/
theorem C8_serverinit_name_length (des : DesFn) (pr : Proto) (out : List Nat)
    (hst : pr.state = .FramebufferInit) :
    (∀ bs : List Nat, 24 ≤ bs.length →
      255 < be32 (byteAt bs 20) (byteAt bs 21) (byteAt bs 22) (byteAt bs 23) →
      readStep des pr ⟨bs, out, false⟩ = ⟨false, pr, ⟨bs, out, true⟩⟩) ∧
    (∀ hdr name rest : List Nat, hdr.length = 24 → name.length = 255 →
      be32 (byteAt hdr 20) (byteAt hdr 21) (byteAt hdr 22) (byteAt hdr 23) = 255 →
      readStep des pr ⟨hdr ++ (name ++ rest), out, false⟩ =
        ⟨true,
         { pr with
            pixelFormat := (hdr.drop 4).take 16,
            fbWidth := be16 (byteAt hdr 0) (byteAt hdr 1),
            fbHeight := be16 (byteAt hdr 2) (byteAt hdr 3),
            serverInitMessage := hdr ++ name,
            state := .Running },
         ⟨rest, out, false⟩⟩) := by
  have hrs : ∀ s : Socket, readStep des pr s = receiveServerInitMessage pr s := by
    intro s
    rw [readStep, if_neg (by rw [hst]; intro hc; cases hc),
        if_neg (by rw [hst]; intro hc; cases hc), if_neg (by rw [hst]; intro hc; cases hc),
        if_neg (by rw [hst]; intro hc; cases hc), if_pos hst]
  constructor
  · intro bs h24 hbig
    rw [hrs]
    simp only [receiveServerInitMessage, bytesAvailable_mk, peekBytes_mk, readBytes_mk,
      close_mk]
    have hnl24 : be32 (byteAt (List.take 24 bs) 20) (byteAt (List.take 24 bs) 21)
        (byteAt (List.take 24 bs) 22) (byteAt (List.take 24 bs) 23) =
        be32 (byteAt bs 20) (byteAt bs 21) (byteAt bs 22) (byteAt bs 23) := by
      rw [byteAt_take (by omega), byteAt_take (by omega), byteAt_take (by omega),
          byteAt_take (by omega)]
    rw [if_pos h24, hnl24, if_pos hbig]
  · intro hdr name rest hh hn hv
    rw [hrs, show hdr ++ (name ++ rest) = (hdr ++ name) ++ rest from
      (List.append_assoc hdr name rest).symm]
    simp only [receiveServerInitMessage, bytesAvailable_mk, peekBytes_mk, readBytes_mk]
    have h24 : (24:Nat) ≤ ((hdr ++ name) ++ rest).length := by
      rw [List.length_append, List.length_append, hh]
      omega
    have hpk : List.take 24 ((hdr ++ name) ++ rest) = hdr := by
      rw [List.take_append_of_le_length (by rw [List.length_append, hh]; omega),
          List.take_append_of_le_length (le_of_eq hh.symm), ← hh, List.take_length]
    rw [if_pos h24, hpk, hv, if_neg (by omega : ¬(255:Nat) < 255)]
    have hpl : (List.take 255 ((hdr ++ name) ++ rest)).length = 255 := by
      rw [List.length_take, List.length_append, List.length_append, hh, hn]
      omega
    have h279 : (24:Nat) + 255 = (hdr ++ name).length := by
      rw [List.length_append, hh, hn]
    rw [if_pos hpl, h279, List.take_left, List.drop_left]
    have hba : ∀ i : Nat, i < 24 → byteAt (hdr ++ name) i = byteAt hdr i := by
      intro i hi
      rw [byteAt, byteAt, List.getD_append]
      omega
    rw [hba 0 (by omega), hba 1 (by omega), hba 2 (by omega), hba 3 (by omega)]

theorem C8_witness :
    readStep desId { proto0 with state := .FramebufferInit }
        ⟨[0, 0, 0, 0, 0, 0, 0, 0, 0, 0, 0, 0, 0, 0, 0, 0, 0, 0, 0, 0, 0, 0, 1, 0],
         [], false⟩ =
      ⟨false, { proto0 with state := .FramebufferInit },
       ⟨[0, 0, 0, 0, 0, 0, 0, 0, 0, 0, 0, 0, 0, 0, 0, 0, 0, 0, 0, 0, 0, 0, 1, 0],
        [], true⟩⟩ ∧
    readStep desId { proto0 with state := .FramebufferInit }
        ⟨[0, 100, 0, 50, 1, 2, 3, 4, 5, 6, 7, 8, 9, 10, 11, 12, 13, 14, 15, 16, 0, 0, 0, 255] ++
           (List.replicate 255 65 ++ [9]), [], false⟩ =
      ⟨true,
       { proto0 with
          pixelFormat := [1, 2, 3, 4, 5, 6, 7, 8, 9, 10, 11, 12, 13, 14, 15, 16],
          fbWidth := 100,
          fbHeight := 50,
          serverInitMessage :=
            [0, 100, 0, 50, 1, 2, 3, 4, 5, 6, 7, 8, 9, 10, 11, 12, 13, 14, 15, 16,
             0, 0, 0, 255] ++ List.replicate 255 65,
          state := .Running },
       ⟨[9], [], false⟩⟩ := by
  have h := C8_serverinit_name_length desId { proto0 with state := .FramebufferInit } [] rfl
  exact ⟨h.1 [0, 0, 0, 0, 0, 0, 0, 0, 0, 0, 0, 0, 0, 0, 0, 0, 0, 0, 0, 0, 0, 0, 1, 0]
           (by decide) (by decide),
         h.2 [0, 100, 0, 50, 1, 2, 3, 4, 5, 6, 7, 8, 9, 10, 11, 12, 13, 14, 15, 16, 0, 0, 0, 255]
           (List.replicate 255 65) [9] (by decide) (List.length_replicate 255 65) (by decide)⟩

/-- C7 (amended): security-type selection with the count byte and the full
type list buffered.  If VNC Authentication (2) is offered it is chosen —
the count byte and list are consumed, the byte `2` is written back and the
state advances to SecurityChallenge — regardless of whether None (1) is also
offered; otherwise, if None (1) is offered it is chosen the same way with the
byte `1` and the state advances to SecurityResult; if the nonempty list
offers neither, the bytes are consumed and the transport is closed.  An empty
list (count byte zero) is also fatal once at least one further byte is
buffered: the count byte is consumed and the transport closed — but, contrary
to the claim, not when the zero count byte arrives alone (see the
counterexample). -/
theorem C7_security_type_selection (des : DesFn) (pr : Proto) (out : List Nat)
    (hst : pr.state = .SecurityInit) :
    (∀ types rest : List Nat, types.length ≤ 255 → 2 ∈ types →
      readStep des pr ⟨types.length :: (types ++ rest), out, false⟩ =
        ⟨true, { pr with state := .SecurityChallenge }, ⟨rest, out ++ [2], false⟩⟩) ∧
    (∀ types rest : List Nat, types.length ≤ 255 → 2 ∉ types → 1 ∈ types →
      readStep des pr ⟨types.length :: (types ++ rest), out, false⟩ =
        ⟨true, { pr with state := .SecurityResult }, ⟨rest, out ++ [1], false⟩⟩) ∧
    (∀ types rest : List Nat, types.length ≤ 255 → types ≠ [] → 2 ∉ types → 1 ∉ types →
      readStep des pr ⟨types.length :: (types ++ rest), out, false⟩ =
        ⟨false, pr, ⟨rest, out, true⟩⟩) ∧
    (∀ (b : Nat) (rest : List Nat),
      readStep des pr ⟨0 :: (b :: rest), out, false⟩ =
        ⟨false, pr, ⟨b :: rest, out, true⟩⟩) := by
  have hrs : ∀ s : Socket, readStep des pr s = receiveSecurityTypes pr s := by
    intro s
    rw [readStep, if_neg (by rw [hst]; intro hc; cases hc), if_pos hst]
  have hmain : ∀ types rest : List Nat, types ≠ [] →
      readStep des pr ⟨types.length :: (types ++ rest), out, false⟩ =
        (if types.contains 2 then
          ⟨true, { pr with state := .SecurityChallenge }, ⟨rest, out ++ [2], false⟩⟩
         else if types.contains 1 then
          ⟨true, { pr with state := .SecurityResult }, ⟨rest, out ++ [1], false⟩⟩
         else ⟨false, pr, ⟨rest, out, true⟩⟩) := by
    intro types rest hne
    have hpos : 0 < types.length := List.length_pos.mpr hne
    rw [hrs]
    simp only [receiveSecurityTypes, bytesAvailable_mk, readBytes_mk, writeBytes_mk,
      close_mk]
    rw [if_pos (show 2 ≤ (types.length :: (types ++ rest)).length by
          rw [List.length_cons, List.length_append]; omega),
        List.take_succ_cons, List.take_zero, List.drop_succ_cons, List.drop_zero,
        show byteAt [types.length] 0 = types.length from rfl,
        if_neg (by omega : ¬types.length = 0),
        List.take_left, List.drop_left,
        if_neg (fun hc => hc rfl)]
  refine ⟨fun types rest hlen h2 => ?_, fun types rest hlen h2 h1 => ?_,
          fun types rest hlen hne h2 h1 => ?_, fun b rest => ?_⟩
  · rw [hmain types rest (List.ne_nil_of_mem h2),
        if_pos (contains_iff_mem.mpr h2)]
  · rw [hmain types rest (List.ne_nil_of_mem h1),
        if_neg (fun hc => h2 (contains_iff_mem.mp hc)),
        if_pos (contains_iff_mem.mpr h1)]
  · rw [hmain types rest hne,
        if_neg (fun hc => h2 (contains_iff_mem.mp hc)),
        if_neg (fun hc => h1 (contains_iff_mem.mp hc))]
  · rw [hrs]
    simp only [receiveSecurityTypes, bytesAvailable_mk, readBytes_mk, close_mk]
    rw [if_pos (show 2 ≤ (0 :: (b :: rest)).length by
          rw [List.length_cons, List.length_cons]; omega),
        List.take_succ_cons, List.take_zero, List.drop_succ_cons, List.drop_zero,
        if_pos (show byteAt [0] 0 = 0 from rfl)]

theorem C7_witness :
    readStep desId { proto0 with state := .SecurityInit } ⟨[2, 1, 2], [], false⟩ =
      ⟨true, { proto0 with state := .SecurityChallenge }, ⟨[], [2], false⟩⟩ ∧
    readStep desId { proto0 with state := .SecurityInit } ⟨[1, 1], [], false⟩ =
      ⟨true, { proto0 with state := .SecurityResult }, ⟨[], [1], false⟩⟩ ∧
    readStep desId { proto0 with state := .SecurityInit } ⟨[1, 99], [], false⟩ =
      ⟨false, { proto0 with state := .SecurityInit }, ⟨[], [], true⟩⟩ ∧
    readStep desId { proto0 with state := .SecurityInit } ⟨[0, 7], [], false⟩ =
      ⟨false, { proto0 with state := .SecurityInit }, ⟨[7], [], true⟩⟩ := by
  have h := C7_security_type_selection desId { proto0 with state := .SecurityInit } [] rfl
  exact ⟨h.1 [1, 2] [] (by decide) (by decide),
         h.2.1 [1] [] (by decide) (by decide) (by decide),
         h.2.2.1 [99] [] (by decide) (by decide) (by decide) (by decide),
         h.2.2.2 7 []⟩

/-- C7 counterexample: an empty security-type list is claimed to be always
fatal, but when the zero count byte is the only byte buffered, `read()`
requires two buffered bytes before acting, so it returns `false` and leaves
the transport open with the zero byte unconsumed — the error is only raised
once a second byte arrives. -/
theorem C7_counterexample :
    readStep desId { proto0 with state := .SecurityInit } ⟨[0], [], false⟩ =
      ⟨false, { proto0 with state := .SecurityInit }, ⟨[0], [], false⟩⟩ := by
  decide

theorem mkRectHeader_length (x y w h e : Nat) : (mkRectHeader x y w h e).length = 12 := by
  simp [mkRectHeader, be16bytes, be32bytes]

theorem mkRectHeader_cons (x y w h e : Nat) (r : List Nat) :
    mkRectHeader x y w h e ++ r =
      x / 256 % 256 :: x % 256 :: y / 256 % 256 :: y % 256 :: w / 256 % 256 :: w % 256 ::
      h / 256 % 256 :: h % 256 :: e / 16777216 % 256 :: e / 65536 % 256 :: e / 256 % 256 ::
      e % 256 :: r := by
  simp [mkRectHeader, be16bytes, be32bytes]

theorem byteAt_drop (d : List Nat) (pos k : Nat) :
    byteAt d (pos + k) = byteAt (List.drop pos d) k := by
  rw [byteAt, byteAt, List.getD_eq_getElem?_getD, List.getD_eq_getElem?_getD,
      List.getElem?_drop]

theorem be16_encode {v : Nat} (hv : v < 65536) : be16 (v / 256 % 256) (v % 256) = v := by
  rw [be16]
  omega

theorem readMessage_nat (pr : Proto) (bs out : List Nat) (k : Nat) (hk : k ≤ bs.length) :
    readMessage pr ⟨bs, out, false⟩ (k : Int) =
      ⟨true, { pr with lastMessage := bs.take k }, ⟨bs.drop k, out, false⟩⟩ := by
  simp only [readMessage, bytesAvailable_mk, readBytes_mk, Int.toNat_natCast]
  rw [if_neg (show ¬((bs.length : Int) < (k : Int)) from by exact_mod_cast Nat.not_lt.mpr hk),
      if_neg (not_lt.mpr (Int.natCast_nonneg k)),
      if_pos (show (List.take k bs).length = k from by rw [List.length_take]; omega)]

theorem parseRectsLoop_raw_step (bpp fbW fbH : Nat) (d payload post : List Nat)
    (pos x y w h n : Nat) (region : List VRect)
    (hpos : pos ≤ d.length)
    (hslice : List.drop pos d = mkRectHeader x y w h 0 ++ (payload ++ post))
    (hx : x < 65536) (hy : y < 65536) (hw : w < 65536) (hh : h < 65536)
    (hpl : payload.length = w * h * bpp) (hsz : w * h * bpp < 2147483648)
    (hxb : x + w ≤ fbW) (hyb : y + h ≤ fbH) (hw0 : 0 < w) (hh0 : 0 < h) :
    parseRectsLoop bpp fbW fbH d (n + 1) pos region =
      parseRectsLoop bpp fbW fbH d n (pos + 12 + payload.length) (region ++ [⟨x, y, w, h⟩]) ∧
    pos + 12 + payload.length ≤ d.length ∧
    List.drop (pos + 12 + payload.length) d = post := by
  have hlen : d.length = pos + (12 + (payload.length + post.length)) := by
    have h1 := List.length_drop pos d
    rw [hslice, List.length_append, List.length_append, mkRectHeader_length] at h1
    omega
  have hslice2 : List.drop pos d =
      x / 256 % 256 :: x % 256 :: y / 256 % 256 :: y % 256 :: w / 256 % 256 :: w % 256 ::
      h / 256 % 256 :: h % 256 :: 0 :: 0 :: 0 :: 0 :: (payload ++ post) := by
    rw [hslice, mkRectHeader_cons]
  have hb0 : byteAt d pos = x / 256 % 256 := by
    have hv := byteAt_drop d pos 0
    rw [hslice2] at hv
    exact hv
  have hb1 : byteAt d (pos + 1) = x % 256 := by
    have hv := byteAt_drop d pos 1
    rw [hslice2] at hv
    exact hv
  have hb2 : byteAt d (pos + 2) = y / 256 % 256 := by
    have hv := byteAt_drop d pos 2
    rw [hslice2] at hv
    exact hv
  have hb3 : byteAt d (pos + 3) = y % 256 := by
    have hv := byteAt_drop d pos 3
    rw [hslice2] at hv
    exact hv
  have hb4 : byteAt d (pos + 4) = w / 256 % 256 := by
    have hv := byteAt_drop d pos 4
    rw [hslice2] at hv
    exact hv
  have hb5 : byteAt d (pos + 5) = w % 256 := by
    have hv := byteAt_drop d pos 5
    rw [hslice2] at hv
    exact hv
  have hb6 : byteAt d (pos + 6) = h / 256 % 256 := by
    have hv := byteAt_drop d pos 6
    rw [hslice2] at hv
    exact hv
  have hb7 : byteAt d (pos + 7) = h % 256 := by
    have hv := byteAt_drop d pos 7
    rw [hslice2] at hv
    exact hv
  have hb8 : byteAt d (pos + 8) = 0 := by
    have hv := byteAt_drop d pos 8
    rw [hslice2] at hv
    exact hv
  have hb9 : byteAt d (pos + 9) = 0 := by
    have hv := byteAt_drop d pos 9
    rw [hslice2] at hv
    exact hv
  have hb10 : byteAt d (pos + 10) = 0 := by
    have hv := byteAt_drop d pos 10
    rw [hslice2] at hv
    exact hv
  have hb11 : byteAt d (pos + 11) = 0 := by
    have hv := byteAt_drop d pos 11
    rw [hslice2] at hv
    exact hv
  refine ⟨?_, by omega, ?_⟩
  · rw [hpl]
    simp only [parseRectsLoop]
    rw [if_pos (show pos + 12 ≤ d.length by omega)]
    rw [hb0, hb1, hb2, hb3, hb4, hb5, hb6, hb7, hb8, hb9, hb10, hb11]
    rw [be16_encode hx, be16_encode hy, be16_encode hw, be16_encode hh,
        show be32 0 0 0 0 = 0 from rfl]
    rw [if_neg (show ¬(0 = rfbEncodingLastRect) from by decide)]
    rw [handleRect]
    rw [if_neg (show ¬(0 = rfbEncodingLastRect) from by decide),
        if_neg (show ¬(0 = rfbEncodingXCursor) from by decide),
        if_neg (show ¬(0 = rfbEncodingRichCursor) from by decide),
        if_neg (show ¬(0 = rfbEncodingSupportedMessages) from by decide),
        if_neg (show ¬(0 = rfbEncodingSupportedEncodings ∨ 0 = rfbEncodingServerIdentity)
          from by decide),
        if_pos (show 0 = rfbEncodingRaw from rfl)]
    rw [show u32 (w * h * bpp) = w * h * bpp from by rw [u32]; omega]
    rw [readChk,
        if_pos (show w * h * bpp < 2147483648 ∧ pos + 12 + (w * h * bpp) ≤ d.length from
          ⟨hsz, by omega⟩)]
    simp only [ofOpt, HandleRectResult.andThen]
    rw [if_pos (show isPseudoEncoding 0 = false ∧ x + w ≤ fbW ∧ y + h ≤ fbH ∧ 0 < w ∧ 0 < h
          from ⟨by decide, hxb, hyb, hw0, hh0⟩)]
  · rw [show pos + 12 + payload.length = pos + (12 + payload.length) from by omega,
        ← List.drop_drop, hslice, List.drop_append_eq_append_drop,
        List.drop_eq_nil_of_le (show (mkRectHeader x y w h 0).length ≤ 12 + payload.length
          from by rw [mkRectHeader_length]; omega),
        List.nil_append, mkRectHeader_length,
        show 12 + payload.length - 12 = payload.length from by omega,
        List.drop_left]

theorem parseRectsLoop_pointerpos_step (bpp fbW fbH : Nat) (d post : List Nat)
    (pos x y w h n : Nat) (region : List VRect)
    (hpos : pos ≤ d.length)
    (hslice : List.drop pos d = mkRectHeader x y w h rfbEncodingPointerPos ++ post) :
    parseRectsLoop bpp fbW fbH d (n + 1) pos region =
      parseRectsLoop bpp fbW fbH d n (pos + 12) region ∧
    pos + 12 ≤ d.length ∧
    List.drop (pos + 12) d = post := by
  have hlen : d.length = pos + (12 + post.length) := by
    have h1 := List.length_drop pos d
    rw [hslice, List.length_append, mkRectHeader_length] at h1
    omega
  have hslice2 : List.drop pos d =
      x / 256 % 256 :: x % 256 :: y / 256 % 256 :: y % 256 :: w / 256 % 256 :: w % 256 ::
      h / 256 % 256 :: h % 256 :: 255 :: 255 :: 255 :: 24 :: post := by
    rw [hslice, mkRectHeader_cons,
        show rfbEncodingPointerPos / 16777216 % 256 = 255 from by decide,
        show rfbEncodingPointerPos / 65536 % 256 = 255 from by decide,
        show rfbEncodingPointerPos / 256 % 256 = 255 from by decide,
        show rfbEncodingPointerPos % 256 = 24 from by decide]
  have hb8 : byteAt d (pos + 8) = 255 := by
    have hv := byteAt_drop d pos 8
    rw [hslice2] at hv
    exact hv
  have hb9 : byteAt d (pos + 9) = 255 := by
    have hv := byteAt_drop d pos 9
    rw [hslice2] at hv
    exact hv
  have hb10 : byteAt d (pos + 10) = 255 := by
    have hv := byteAt_drop d pos 10
    rw [hslice2] at hv
    exact hv
  have hb11 : byteAt d (pos + 11) = 24 := by
    have hv := byteAt_drop d pos 11
    rw [hslice2] at hv
    exact hv
  refine ⟨?_, by omega, ?_⟩
  · simp only [parseRectsLoop]
    rw [if_pos (show pos + 12 ≤ d.length by omega)]
    rw [hb8, hb9, hb10, hb11, show be32 255 255 255 24 = rfbEncodingPointerPos from by decide]
    rw [if_neg (show ¬(rfbEncodingPointerPos = rfbEncodingLastRect) from by decide)]
    rw [handleRect]
    rw [if_neg (show ¬(rfbEncodingPointerPos = rfbEncodingLastRect) from by decide),
        if_neg (show ¬(rfbEncodingPointerPos = rfbEncodingXCursor) from by decide),
        if_neg (show ¬(rfbEncodingPointerPos = rfbEncodingRichCursor) from by decide),
        if_neg (show ¬(rfbEncodingPointerPos = rfbEncodingSupportedMessages) from by decide),
        if_neg (show ¬(rfbEncodingPointerPos = rfbEncodingSupportedEncodings ∨
          rfbEncodingPointerPos = rfbEncodingServerIdentity) from by decide),
        if_neg (show ¬(rfbEncodingPointerPos = rfbEncodingRaw) from by decide),
        if_neg (show ¬(rfbEncodingPointerPos = rfbEncodingCopyRect) from by decide),
        if_neg (show ¬(rfbEncodingPointerPos = rfbEncodingRRE) from by decide),
        if_neg (show ¬(rfbEncodingPointerPos = rfbEncodingCoRRE) from by decide),
        if_neg (show ¬(rfbEncodingPointerPos = rfbEncodingHextile) from by decide),
        if_neg (show ¬(rfbEncodingPointerPos = rfbEncodingUltra ∨
          rfbEncodingPointerPos = rfbEncodingUltraZip ∨
          rfbEncodingPointerPos = rfbEncodingZlib) from by decide),
        if_neg (show ¬(rfbEncodingPointerPos = rfbEncodingZRLE ∨
          rfbEncodingPointerPos = rfbEncodingZYWRLE) from by decide),
        if_pos (show rfbEncodingPointerPos = rfbEncodingPointerPos ∨
          rfbEncodingPointerPos = rfbEncodingKeyboardLedState ∨
          rfbEncodingPointerPos = rfbEncodingNewFBSize from Or.inl rfl)]
    simp only [HandleRectResult.andThen]
    rw [if_neg (fun hc => absurd hc.1 (by decide))]
  · rw [← List.drop_drop, hslice, List.drop_append_eq_append_drop,
        List.drop_eq_nil_of_le (le_of_eq (mkRectHeader_length x y w h rfbEncodingPointerPos)),
        List.nil_append, mkRectHeader_length,
        show (12:Nat) - 12 = 0 from rfl, List.drop_zero]

/-- C4 counterexample: a FramebufferUpdate message with two Raw rectangles at
the disjoint coordinates (0,0,1x1) and (10,10,1x1), fully buffered and fully
consumed, leaves `⟨0, 0, 11, 11⟩` as the exposed updated rectangle: the source
exposes `QRegion::boundingRect()` of the updated region, a single rectangle,
not the union of the two bounding boxes.  The point (5,5) lies in the exposed
rectangle but in neither of the two rectangles of the message, so the exposed
region is strictly larger than the union the claim describes. -/
theorem C4_counterexample :
    (receiveMessage protoRun
        ⟨[0, 0, 0, 2,
          0, 0, 0, 0, 0, 1, 0, 1, 0, 0, 0, 0, 7,
          0, 10, 0, 10, 0, 1, 0, 1, 0, 0, 0, 0, 9], [], false⟩).ok = true ∧
    (receiveMessage protoRun
        ⟨[0, 0, 0, 2,
          0, 0, 0, 0, 0, 1, 0, 1, 0, 0, 0, 0, 7,
          0, 10, 0, 10, 0, 1, 0, 1, 0, 0, 0, 0, 9], [], false⟩).socket.input = [] ∧
    (receiveMessage protoRun
        ⟨[0, 0, 0, 2,
          0, 0, 0, 0, 0, 1, 0, 1, 0, 0, 0, 0, 7,
          0, 10, 0, 10, 0, 1, 0, 1, 0, 0, 0, 0, 9], [], false⟩).proto.lastUpdatedRect =
      ⟨0, 0, 11, 11⟩ ∧
    pointInRect 5 5 ⟨0, 0, 11, 11⟩ = true ∧
    pointInRect 5 5 ⟨0, 0, 1, 1⟩ = false ∧
    pointInRect 5 5 ⟨10, 10, 1, 1⟩ = false := by
  decide

/-- C4 (amended): after a FramebufferUpdate message with two in-bounds Raw
rectangles and one PointerPos pseudo-rectangle is fully consumed by
`receiveMessage()`, the message is stored, exactly its bytes are consumed, and
the exposed updated rectangle is the *bounding rectangle* of the union of the
two Raw bounding boxes — the single QRect spanning from the componentwise
minimum corner to the componentwise maximum corner — while the PointerPos
rectangle contributes nothing to it.  For rectangles at disjoint coordinates
this bounding rectangle is strictly larger than the union of the two boxes, so
the claim's "updated region equals the union" holds only for the bounding
rectangle of that union (see the counterexample). -/
theorem C4_updated_region_bounding_rect
    (pr : Proto) (out rest p1 p2 : List Nat) (bpp : Nat)
    (x1 y1 w1 h1 cx cy cw ch x2 y2 w2 h2 : Nat) (d : List Nat)
    (hbpp : byteAt pr.pixelFormat 0 / 8 = bpp)
    (hd : d = 0 :: 0 :: 0 :: 3 ::
      (mkRectHeader x1 y1 w1 h1 0 ++ (p1 ++
        (mkRectHeader cx cy cw ch rfbEncodingPointerPos ++
          (mkRectHeader x2 y2 w2 h2 0 ++ (p2 ++ rest))))))
    (hmax : d.length ≤ MaximumMessageSize)
    (hx1 : x1 < 65536) (hy1 : y1 < 65536) (hw1 : w1 < 65536) (hh1 : h1 < 65536)
    (hx2 : x2 < 65536) (hy2 : y2 < 65536) (hw2 : w2 < 65536) (hh2 : h2 < 65536)
    (hp1 : p1.length = w1 * h1 * bpp) (hs1 : w1 * h1 * bpp < 2147483648)
    (hp2 : p2.length = w2 * h2 * bpp) (hs2 : w2 * h2 * bpp < 2147483648)
    (hfb1 : x1 + w1 ≤ pr.fbWidth) (hfb2 : y1 + h1 ≤ pr.fbHeight)
    (hfb3 : x2 + w2 ≤ pr.fbWidth) (hfb4 : y2 + h2 ≤ pr.fbHeight)
    (hw10 : 0 < w1) (hh10 : 0 < h1) (hw20 : 0 < w2) (hh20 : 0 < h2) :
    receiveMessage pr ⟨d, out, false⟩ =
      ⟨true,
       { pr with
          lastUpdatedRect := boundingRect [⟨x1, y1, w1, h1⟩, ⟨x2, y2, w2, h2⟩],
          lastMessage := 0 :: 0 :: 0 :: 3 ::
            (mkRectHeader x1 y1 w1 h1 0 ++ (p1 ++
              (mkRectHeader cx cy cw ch rfbEncodingPointerPos ++
                (mkRectHeader x2 y2 w2 h2 0 ++ p2)))) },
       ⟨rest, out, false⟩⟩ ∧
    boundingRect [⟨x1, y1, w1, h1⟩, ⟨x2, y2, w2, h2⟩] =
      ⟨min x1 x2, min y1 y2, max (x1 + w1) (x2 + w2) - min x1 x2,
       max (y1 + h1) (y2 + h2) - min y1 y2⟩ := by
  constructor
  · have hdlen : d.length = 40 + (p1.length + (p2.length + rest.length)) := by
      rw [hd]
      simp only [List.length_cons, List.length_append, mkRectHeader_length]
      omega
    have ha0 : byteAt d 0 = 0 := by
      rw [hd]
      rfl
    have ha2 : byteAt d 2 = 0 := by
      rw [hd]
      rfl
    have ha3 : byteAt d 3 = 3 := by
      rw [hd]
      rfl
    simp only [receiveMessage, bytesAvailable_mk]
    rw [if_neg (show ¬MaximumMessageSize < d.length from by omega),
        if_neg (show ¬d.length < 1 from by omega),
        ha0, if_pos rfl]
    simp only [receiveFramebufferUpdateMessage]
    rw [if_neg (show ¬d.length < 4 from by omega), ha2, ha3, hbpp,
        show be16 0 3 = 2 + 1 from rfl]
    have hsl1 : List.drop 4 d = mkRectHeader x1 y1 w1 h1 0 ++ (p1 ++
        (mkRectHeader cx cy cw ch rfbEncodingPointerPos ++
          (mkRectHeader x2 y2 w2 h2 0 ++ (p2 ++ rest)))) := by
      rw [hd]
      rfl
    have st1 := parseRectsLoop_raw_step bpp pr.fbWidth pr.fbHeight d p1
      (mkRectHeader cx cy cw ch rfbEncodingPointerPos ++
        (mkRectHeader x2 y2 w2 h2 0 ++ (p2 ++ rest)))
      4 x1 y1 w1 h1 2 [] (by omega) hsl1 hx1 hy1 hw1 hh1 hp1 hs1 hfb1 hfb2 hw10 hh10
    rw [st1.1, show (2:Nat) = 1 + 1 from rfl]
    have st2 := parseRectsLoop_pointerpos_step bpp pr.fbWidth pr.fbHeight d
      (mkRectHeader x2 y2 w2 h2 0 ++ (p2 ++ rest))
      (4 + 12 + p1.length) cx cy cw ch 1 ([] ++ [⟨x1, y1, w1, h1⟩]) st1.2.1 st1.2.2
    rw [st2.1, show (1:Nat) = 0 + 1 from rfl]
    have st3 := parseRectsLoop_raw_step bpp pr.fbWidth pr.fbHeight d p2 rest
      (4 + 12 + p1.length + 12) x2 y2 w2 h2 0 ([] ++ [⟨x1, y1, w1, h1⟩])
      st2.2.1 st2.2.2 hx2 hy2 hw2 hh2 hp2 hs2 hfb3 hfb4 hw20 hh20
    rw [st3.1]
    simp only [parseRectsLoop, ParseResult.finish]
    rw [readMessage_nat _ _ _ _ (show 4 + 12 + p1.length + 12 + 12 + p2.length ≤ d.length
          from by omega)]
    have hsplit : d = (0 :: 0 :: 0 :: 3 ::
        (mkRectHeader x1 y1 w1 h1 0 ++ (p1 ++
          (mkRectHeader cx cy cw ch rfbEncodingPointerPos ++
            (mkRectHeader x2 y2 w2 h2 0 ++ p2))))) ++ rest := by
      rw [hd]
      simp [List.cons_append, List.append_assoc]
    have hmlen : (0 :: 0 :: 0 :: 3 ::
        (mkRectHeader x1 y1 w1 h1 0 ++ (p1 ++
          (mkRectHeader cx cy cw ch rfbEncodingPointerPos ++
            (mkRectHeader x2 y2 w2 h2 0 ++ p2))))).length =
        4 + 12 + p1.length + 12 + 12 + p2.length := by
      simp only [List.length_cons, List.length_append, mkRectHeader_length]
      omega
    have htake : List.take (4 + 12 + p1.length + 12 + 12 + p2.length) d =
        0 :: 0 :: 0 :: 3 ::
          (mkRectHeader x1 y1 w1 h1 0 ++ (p1 ++
            (mkRectHeader cx cy cw ch rfbEncodingPointerPos ++
              (mkRectHeader x2 y2 w2 h2 0 ++ p2)))) := by
      rw [hsplit, ← hmlen, List.take_left]
    have hdrop : List.drop (4 + 12 + p1.length + 12 + 12 + p2.length) d = rest := by
      rw [hsplit, ← hmlen, List.drop_left]
    rw [htake, hdrop,
        show ([] ++ [(⟨x1, y1, w1, h1⟩ : VRect)]) ++ [(⟨x2, y2, w2, h2⟩ : VRect)] =
          [⟨x1, y1, w1, h1⟩, ⟨x2, y2, w2, h2⟩] from by simp]
  · simp [boundingRect]

theorem C4_witness :
    receiveMessage protoRun
        ⟨0 :: 0 :: 0 :: 3 ::
          (mkRectHeader 0 0 1 1 0 ++ ([7] ++
            (mkRectHeader 3 4 0 0 rfbEncodingPointerPos ++
              (mkRectHeader 10 10 1 1 0 ++ ([9] ++ [5]))))), [], false⟩ =
      ⟨true,
       { protoRun with
          lastUpdatedRect := boundingRect [⟨0, 0, 1, 1⟩, ⟨10, 10, 1, 1⟩],
          lastMessage := 0 :: 0 :: 0 :: 3 ::
            (mkRectHeader 0 0 1 1 0 ++ ([7] ++
              (mkRectHeader 3 4 0 0 rfbEncodingPointerPos ++
                (mkRectHeader 10 10 1 1 0 ++ [9])))) },
       ⟨[5], [], false⟩⟩ ∧
    boundingRect [⟨0, 0, 1, 1⟩, ⟨10, 10, 1, 1⟩] = ⟨0, 0, 11, 11⟩ := by
  have h := C4_updated_region_bounding_rect protoRun [] [5] [7] [9] 1
    0 0 1 1 3 4 0 0 10 10 1 1
    (0 :: 0 :: 0 :: 3 ::
      (mkRectHeader 0 0 1 1 0 ++ ([7] ++
        (mkRectHeader 3 4 0 0 rfbEncodingPointerPos ++
          (mkRectHeader 10 10 1 1 0 ++ ([9] ++ [5]))))))
    (by decide) rfl (by decide)
    (by decide) (by decide) (by decide) (by decide)
    (by decide) (by decide) (by decide) (by decide)
    (by decide) (by decide) (by decide) (by decide)
    (by decide) (by decide) (by decide) (by decide)
    (by decide) (by decide) (by decide) (by decide)
  exact ⟨h.1, h.2⟩
